import Mathlib

/-!
Shallow embedding of the workflow execution engine of the no-code-sutra
backend (src/backend/src/services), together with proofs settling the
frozen claims about its natural-language specification.

Conventions of the embedding:
* Python dictionaries with string keys become association lists
  (`List (String × α)`) with Python insertion semantics: assignment to an
  existing key replaces the value in place, assignment to a fresh key
  appends at the end, and lookup returns the first matching entry.
* JSON-ish Python values (node outputs, configs) become the inductive
  `Value` type.
* Wall-clock fields (`start_time`, `end_time`, `execution_time`,
  `timestamp`) are outside the embedding: they carry `time.time()` /
  `datetime.now()` readings that no claim concerns; where a timestamp is
  stored into a record the embedding takes it as an explicit parameter.
* `uuid.uuid4()` run ids are free inputs (parameters).
* Exceptions raised and caught inside the engine become structured
  `RunError` values; the Python code serialises them with `str(e)` into the
  run record, so a `RunError` constructor carries exactly the data that the
  corresponding f-string interpolates.
-/

/-- Python-style dynamic values: the payloads that flow between nodes. -/
inductive Value where
  | vNone
  | vBool (b : Bool)
  | vInt (n : Int)
  | vStr (s : String)
  | vList (xs : List Value)
  | vDict (kvs : List (String × Value))
deriving Repr

/-- Association-list lookup with Python dict semantics (first matching key). -/
def dlookup {α : Type} : List (String × α) → String → Option α
  | [], _ => none
  | (k, v) :: rest, key => if k = key then some v else dlookup rest key

/-- Lookup with a default, modelling Python `d.get(key, default)`. -/
def dlookupD {α : Type} (d : List (String × α)) (key : String) (dflt : α) : α :=
  (dlookup d key).getD dflt

/-- Key-membership test, modelling Python `key in d`. -/
def dmem {α : Type} (d : List (String × α)) (key : String) : Bool :=
  (dlookup d key).isSome

/-- Dict assignment `d[key] = v`: replace the first matching entry in place,
or append a fresh entry at the end (Python insertion-order semantics). -/
def dinsert {α : Type} : List (String × α) → String → α → List (String × α)
  | [], key, v => [(key, v)]
  | (k, w) :: rest, key, v =>
    if k = key then (k, v) :: rest else (k, w) :: dinsert rest key v

/-- Dict bulk update `d.update(r)`: assign every entry of `r` in order. -/
def dupdate {α : Type} (d r : List (String × α)) : List (String × α) :=
  r.foldl (fun acc kv => dinsert acc kv.1 kv.2) d

/-- Python truthiness of a `Value` (`if v:`). -/
def Value.truthy : Value → Bool
  | .vNone => false
  | .vBool b => b
  | .vInt n => n ≠ 0
  | .vStr s => s ≠ ""
  | .vList xs => !xs.isEmpty
  | .vDict kvs => !kvs.isEmpty

/-- Dictionaries of values, the pervasive Python `Dict[str, Any]`. -/
abbrev VDict := List (String × Value)

/-- Whether the character list `key` occurs as a contiguous sublist of `s`
(helper for `strMentions`). -/
def charsContain : List Char → List Char → Bool
  | s, key => (s.tails).any (fun t => key.isPrefixOf t)

/-- Whether the string `key` occurs inside the string `s`; used to express
"the error text mentions the key". -/
def strMentions (s key : String) : Bool :=
  charsContain s.data key.data

/-! ## node_executors/base.py -/

/-- Per-step status enumeration (`ExecutionStatus` in workflow_executor.py). -/
inductive ExecStatus where
  | pending
  | running
  | completed
  | failed
  | cancelled
deriving Repr, DecidableEq

/-- Context passed to node executors (`ExecutionContext` in base.py). -/
structure ExecutionContext where
  workflow_id : String
  execution_id : String
  node_id : String
  inputs : VDict
  config : VDict
  previous_outputs : VDict
deriving Repr

/-- Result returned by node executors (`ExecutionResult` in base.py).
The wall-clock `execution_time` field is outside the embedding. -/
structure ExecutionResult where
  success : Bool
  output : Value
  error : Option String := none
  metadata : Option Value := none
deriving Repr

/-- Pre-execution hook (`BaseNodeExecutor.pre_execute`): configuration
validation followed by required-input presence validation. The concrete
executor supplies `validate_config` and `get_required_inputs`. -/
def pre_execute (validate_config : VDict → List String)
    (required_inputs : List String) (ctx : ExecutionContext) : Bool :=
  let config_errors := validate_config ctx.config
  if !config_errors.isEmpty then
    false
  else
    let missing := required_inputs.filter (fun k => !(dmem ctx.inputs k))
    if !missing.isEmpty then false else true

/-! ## workflow_executor.py: data model -/

/-- Input binding specification found under `node["data"]["inputs"]`:
a plain string is a direct reference, a dict is a structured
`{source, field}` reference (a missing `"field"` key defaults to `"data"`,
a missing `"source"` key behaves like the empty string: both are falsy and
skipped), anything else is ignored by `_prepare_node_inputs`. -/
inductive InputSpec where
  | direct (ref : String)
  | structured (source : String) (field : String)
  | other
deriving Repr

/-- One workflow node. Python nodes are dicts; the fields used by the
executor are `node["id"]`, `node["type"]`, `node["data"]["inputs"]` and
`node["data"]["config"]`. -/
structure WorkflowNode where
  id : String
  type : String
  inputs : List (String × InputSpec) := []
  config : VDict := []
deriving Repr

/-- One workflow edge; `edge.get("source")` / `edge.get("target")` model a
missing or `None` endpoint as the empty string (both are falsy in the
`if source and target:` guard and treated identically). -/
structure WorkflowEdge where
  source : String
  target : String
deriving Repr

/-- Workflow definition passed to `execute_workflow`
(`workflow.get("id", "unknown")`, `workflow.get("nodes", [])`,
`workflow.get("edges", [])`). -/
structure Workflow where
  id : String := "unknown"
  nodes : List WorkflowNode := []
  edges : List WorkflowEdge := []
deriving Repr

/-- Exceptions raised inside the engine. The Python code stores
`str(e)` into `execution.error`; each constructor carries exactly the data
interpolated into the corresponding message:
`circularDependency remaining` is
"Circular dependency detected. Remaining nodes: {remaining}",
`nodeFailed id err` is "Node {id} failed: {err}",
`noExecutor t` is "No executor found for node type: {t}",
`stepNotFound id` is "Execution step not found for node: {id}". -/
inductive RunError where
  | circularDependency (remaining : List String)
  | nodeFailed (node_id : String) (error : Option String)
  | noExecutor (node_type : String)
  | stepNotFound (node_id : String)
deriving Repr, DecidableEq

/-- One step record per node (`ExecutionStep` in workflow_executor.py).
Wall-clock `start_time`/`end_time` are outside the embedding; the transient
`RUNNING` assignment inside `_execute_single_node` is folded into the final
status the step holds when the node's task finishes. -/
structure ExecutionStep where
  node_id : String
  node_type : String
  status : ExecStatus := .pending
  result : Option ExecutionResult := none
  error : Option String := none
  inputs : VDict := []
  outputs : Value := .vDict []
deriving Repr

/-- Run record (`WorkflowExecution` in workflow_executor.py), as returned to
the caller. The structured `error` stands for the Python `str(e)` string. -/
structure WorkflowExecution where
  execution_id : String
  workflow_id : String
  status : ExecStatus := .pending
  steps : List ExecutionStep := []
  results : VDict := []
  error : Option RunError := none
  metadata : VDict := []
deriving Repr

/-- Pluggable environment for a run: which node types have a registered
executor (`executor_registry.get_executor` returning an instance or `None`)
and what that executor's `execute` returns on a given context. -/
structure ExecEnv where
  registered : String → Bool
  execFn : String → ExecutionContext → ExecutionResult

/-! ## workflow_executor.py: dependency build and input resolution -/

/-- Append `s` to the dependency list of `t`, creating the entry if absent
(`if target not in dependencies: dependencies[target] = []` followed by
`dependencies[target].append(source)`). -/
def depAdd : List (String × List String) → String → String → List (String × List String)
  | [], t, s => [(t, [s])]
  | (k, vs) :: rest, t, s =>
    if k = t then (k, vs ++ [s]) :: rest else (k, vs) :: depAdd rest t s

/-- Dependency graph builder (`WorkflowExecutor._build_dependency_graph`):
every declared node starts with an empty list, then each edge with truthy
endpoints appends its source to its target's list. Duplicate declared ids
would create shadowed (never consulted) later entries, matching the Python
dict comprehension that keeps a single entry per id. -/
def build_dependency_graph (nodes : List WorkflowNode) (edges : List WorkflowEdge) :
    List (String × List String) :=
  edges.foldl
    (fun deps e => if e.source ≠ "" ∧ e.target ≠ "" then depAdd deps e.target e.source else deps)
    (nodes.map fun n => (n.id, ([] : List String)))

/-- Input resolver (`WorkflowExecutor._prepare_node_inputs`): a string
binding is a direct whole-key lookup in the output namespace; a dict
binding `{source, field}` resolves the field inside the producer's output
when that output is a dict containing the field, and otherwise degrades to
the producer's whole output; unresolvable bindings are simply absent. -/
def prepare_node_inputs (node : WorkflowNode) (node_outputs : VDict) : VDict :=
  node.inputs.foldl
    (fun inputs kv =>
      match kv.2 with
      | .direct ref =>
        match dlookup node_outputs ref with
        | some v => dinsert inputs kv.1 v
        | none => inputs
      | .structured source field =>
        if source ≠ "" then
          match dlookup node_outputs source with
          | some (Value.vDict entries) =>
            match dlookup entries field with
            | some v => dinsert inputs kv.1 v
            | none => dinsert inputs kv.1 (Value.vDict entries)
          | some out => dinsert inputs kv.1 out
          | none => inputs
        else inputs
      | .other => inputs)
    []

/-! ## workflow_executor.py: the wavefront loop -/

/-- What one node's task produces: either an exception that
`asyncio.gather(..., return_exceptions=True)` hands back, or the executor's
`ExecutionResult`. -/
inductive NodeOutcome where
  | exn (e : RunError)
  | res (r : ExecutionResult)
deriving Repr

/-- Update the first step whose `node_id` matches
(`next(s for s in execution.steps if s.node_id == node_id)`). -/
def updateStep : List ExecutionStep → String → (ExecutionStep → ExecutionStep) →
    List ExecutionStep
  | [], _, _ => []
  | s :: rest, id, f =>
    if s.node_id = id then f s :: rest else s :: updateStep rest id f

/-- One node's task (`WorkflowExecutor._execute_single_node`): find the
step, look up the executor, resolve inputs, run the executor and record the
outcome on the step. -/
def run_single_node (env : ExecEnv) (wfId runId : String) (node : WorkflowNode)
    (node_outputs : VDict) (steps : List ExecutionStep) :
    List ExecutionStep × NodeOutcome :=
  if (steps.find? (fun s => s.node_id == node.id)).isNone then
    (steps, .exn (.stepNotFound node.id))
  else if !env.registered node.type then
    (updateStep steps node.id (fun s =>
      { s with status := .failed,
               error := some ("No executor found for node type: " ++ node.type) }),
     .exn (.noExecutor node.type))
  else
    let inputs := prepare_node_inputs node node_outputs
    let ctx : ExecutionContext :=
      { workflow_id := wfId, execution_id := runId, node_id := node.id,
        inputs := inputs, config := node.config, previous_outputs := node_outputs }
    let r := env.execFn node.type ctx
    (updateStep steps node.id (fun s =>
      { s with inputs := inputs,
               result := some r,
               outputs := if r.success then r.output else .vDict [],
               status := if r.success then .completed else .failed,
               error := if r.success then s.error else r.error }),
     .res r)

/-- Execute a whole ready set. All tasks of the wave run before any result
is processed (the `asyncio.gather` barrier); every task sees the same
pre-wave namespace and each records its outcome on its own step. -/
def run_wave (env : ExecEnv) (wfId runId : String) (ready : List WorkflowNode)
    (node_outputs : VDict) (steps : List ExecutionStep) :
    List ExecutionStep × List (String × NodeOutcome) :=
  ready.foldl
    (fun acc node =>
      let sr := run_single_node env wfId runId node node_outputs acc.1
      (sr.1, acc.2 ++ [(node.id, sr.2)]))
    (steps, [])

/-- Post-barrier result processing, in wave order: an exception aborts
immediately; otherwise the node id enters the executed set, a success
merges its output into the namespace, and a failure aborts the run with
`Node {id} failed: {error}`. -/
def process_results : List (String × NodeOutcome) → List String → VDict →
    List String × VDict × Option RunError
  | [], executed, outputs => (executed, outputs, none)
  | (id, oc) :: rest, executed, outputs =>
    match oc with
    | .exn e => (executed, outputs, some e)
    | .res r =>
      let executed2 := if id ∈ executed then executed else executed ++ [id]
      if r.success then process_results rest executed2 (dinsert outputs id r.output)
      else (executed2, outputs, some (.nodeFailed id r.error))

/-- Result of the wavefront loop. `fuelOut` is an artifact of the
fuel-bounded translation of `while len(executed_nodes) < len(nodes):`;
the termination theorems show it is never reached at the fuel used by
`execute_workflow`. -/
inductive LoopOutcome where
  | done (steps : List ExecutionStep) (outputs : VDict)
  | aborted (steps : List ExecutionStep) (outputs : VDict) (err : RunError)
  | fuelOut
deriving Repr

/-- The wavefront loop (`WorkflowExecutor._execute_nodes`): while not all
nodes are executed, compute the ready set in node-list order; an empty
ready set raises the circular-dependency diagnosis listing the unexecuted
node ids; otherwise run the wave and process its results. -/
def wave_loop (env : ExecEnv) (wfId runId : String) (nodes : List WorkflowNode)
    (deps : List (String × List String)) :
    Nat → List String → VDict → List ExecutionStep → LoopOutcome
  | 0, _, _, _ => .fuelOut
  | fuel + 1, executed, outputs, steps =>
    if executed.length < nodes.length then
      let ready := nodes.filter (fun n =>
        decide (n.id ∉ executed) &&
        (dlookupD deps n.id []).all (fun d => decide (d ∈ executed)))
      if ready.isEmpty then
        .aborted steps outputs
          (.circularDependency
            ((nodes.filter (fun n => decide (n.id ∉ executed))).map (fun n => n.id)))
      else
        let wr := run_wave env wfId runId ready outputs steps
        match process_results wr.2 executed outputs with
        | (_, outputs2, some e) => .aborted wr.1 outputs2 e
        | (executed2, outputs2, none) =>
          wave_loop env wfId runId nodes deps fuel executed2 outputs2 wr.1
    else .done steps outputs

/-- The full run (`WorkflowExecutor.execute_workflow`): create one pending
step per node, build the dependency map, seed the namespace with the
initial inputs and drive the loop; a normal exit is `COMPLETED`, an
exception is caught into `FAILED` with `str(e)` as the run error. The
`results` field of the record is whatever the engine wrote there (the loop
keeps its namespace in the local `node_outputs`). `none` is the
fuel-exhaustion artifact, proved unreachable. -/
def execute_workflow (env : ExecEnv) (runId : String) (wf : Workflow)
    (initial_inputs : VDict) : Option WorkflowExecution :=
  let steps0 := wf.nodes.map (fun n =>
    ({ node_id := n.id, node_type := n.type } : ExecutionStep))
  let deps := build_dependency_graph wf.nodes wf.edges
  match wave_loop env wf.id runId wf.nodes deps (wf.nodes.length + 1) []
      (dupdate [] initial_inputs) steps0 with
  | .done steps _ =>
    some { execution_id := runId, workflow_id := wf.id, status := .completed,
           steps := steps, results := [], error := none }
  | .aborted steps _ e =>
    some { execution_id := runId, workflow_id := wf.id, status := .failed,
           steps := steps, results := [], error := some e }
  | .fuelOut => none

/-! ## workflow_executor.py: cancellation

`cancel_execution` mutates the shared `WorkflowExecution` record while the
coordinator's loop is running. The loop itself never reads
`execution.status`, and `execute_workflow` unconditionally overwrites the
status on exit. The variant loop below makes the interleaving explicit: a
cancellation request arriving at wave boundary `w` sets the record's status
to `CANCELLED` there, and the threaded status is otherwise carried along
untouched (the loop body never consults it). -/

/-- The wavefront loop with a cancellation request injected at a chosen wave
boundary. Identical to `wave_loop` except for threading the record's
`status` field, which the body writes only when the external
`cancel_execution` fires and never reads. -/
def wave_loop_cancel (env : ExecEnv) (wfId runId : String) (nodes : List WorkflowNode)
    (deps : List (String × List String)) (cancelAt : Option Nat) :
    Nat → Nat → ExecStatus → List String → VDict → List ExecutionStep →
    LoopOutcome × ExecStatus
  | waveIdx, 0, st, _, _, _ =>
    (.fuelOut, if cancelAt = some waveIdx then .cancelled else st)
  | waveIdx, fuel + 1, st, executed, outputs, steps =>
    let st2 := if cancelAt = some waveIdx then ExecStatus.cancelled else st
    if executed.length < nodes.length then
      let ready := nodes.filter (fun n =>
        decide (n.id ∉ executed) &&
        (dlookupD deps n.id []).all (fun d => decide (d ∈ executed)))
      if ready.isEmpty then
        (.aborted steps outputs
          (.circularDependency
            ((nodes.filter (fun n => decide (n.id ∉ executed))).map (fun n => n.id))),
         st2)
      else
        let wr := run_wave env wfId runId ready outputs steps
        match process_results wr.2 executed outputs with
        | (_, outputs2, some e) => (.aborted wr.1 outputs2 e, st2)
        | (executed2, outputs2, none) =>
          wave_loop_cancel env wfId runId nodes deps cancelAt (waveIdx + 1) fuel st2
            executed2 outputs2 wr.1
    else (.done steps outputs, st2)

/-- A run with a cancellation request arriving at wave boundary `cancelAt`.
Faithful to `execute_workflow`: on normal loop exit the record's status is
assigned `COMPLETED`, on an exception `FAILED` — in both cases overwriting
whatever `cancel_execution` wrote while the loop ran. -/
def execute_workflow_with_cancel (env : ExecEnv) (runId : String) (wf : Workflow)
    (initial_inputs : VDict) (cancelAt : Option Nat) : Option WorkflowExecution :=
  let steps0 := wf.nodes.map (fun n =>
    ({ node_id := n.id, node_type := n.type } : ExecutionStep))
  let deps := build_dependency_graph wf.nodes wf.edges
  match (wave_loop_cancel env wf.id runId wf.nodes deps cancelAt 0
      (wf.nodes.length + 1) .running [] (dupdate [] initial_inputs) steps0).1 with
  | .done steps _ =>
    some { execution_id := runId, workflow_id := wf.id, status := .completed,
           steps := steps, results := [], error := none }
  | .aborted steps _ e =>
    some { execution_id := runId, workflow_id := wf.id, status := .failed,
           steps := steps, results := [], error := some e }
  | .fuelOut => none

/-- The active-runs table (`self.active_executions`): run id to the run
record's current status (the only field `cancel_execution` touches). -/
abbrev ActiveTable := List (String × ExecStatus)

/-- Cancellation entry point (`WorkflowExecutor.cancel_execution`): when the
run id is in the active table, set its record's status to `CANCELLED` and
return `True`; otherwise return `False`. -/
def cancel_execution (active : ActiveTable) (runId : String) : Bool × ActiveTable :=
  match dlookup active runId with
  | some _ => (true, dinsert active runId .cancelled)
  | none => (false, active)

/-! ## node_executors/registry.py -/

/-- An executor instance: `executor_class(node_type)` remembers the class it
was instantiated from and the constructor argument. Classes are abstract
identifiers; the `issubclass` guard of `register` is outside the embedding
(every modelled class is a `BaseNodeExecutor` subclass). -/
structure ExecutorInstance where
  cls : String
  node_type : String
deriving Repr, DecidableEq

/-- Registry state (`NodeExecutorRegistry`): the class table `_executors`
and the lazy instance cache `_instances`. -/
structure NodeExecutorRegistry where
  executors : List (String × String) := []
  instances : List (String × ExecutorInstance) := []
deriving Repr, DecidableEq

/-- Register a node executor class (`NodeExecutorRegistry.register`):
overwrites the class table entry, leaves the instance cache alone. -/
def Registry.register (r : NodeExecutorRegistry) (node_type cls : String) :
    NodeExecutorRegistry :=
  { r with executors := dinsert r.executors node_type cls }

/-- Get an executor instance (`NodeExecutorRegistry.get_executor`):
`none` for an unregistered type; otherwise the cached instance, creating
and caching `executor_class(node_type)` on first request. Returns the
instance and the updated registry. -/
def Registry.get_executor (r : NodeExecutorRegistry) (node_type : String) :
    Option ExecutorInstance × NodeExecutorRegistry :=
  match dlookup r.executors node_type with
  | none => (none, r)
  | some cls =>
    match dlookup r.instances node_type with
    | some inst => (some inst, r)
    | none =>
      let inst : ExecutorInstance := { cls := cls, node_type := node_type }
      (some inst, { r with instances := dinsert r.instances node_type inst })

/-- Get the registered class (`NodeExecutorRegistry.get_executor_class`). -/
def Registry.get_executor_class (r : NodeExecutorRegistry) (node_type : String) :
    Option String :=
  dlookup r.executors node_type

/-- Clear the instance cache (`NodeExecutorRegistry.clear_cache`). -/
def Registry.clear_cache (r : NodeExecutorRegistry) : NodeExecutorRegistry :=
  { r with instances := [] }

/-! ## node_executors/data_executor.py -/

mutual

/-- Structural equality of values, modelling Python `==` on JSON-ish data
(the `True == 1` coercion quirk is outside the embedding). -/
def Value.beq : Value → Value → Bool
  | .vNone, .vNone => true
  | .vBool a, .vBool b => a == b
  | .vInt a, .vInt b => a == b
  | .vStr a, .vStr b => a == b
  | .vList xs, .vList ys => Value.beqList xs ys
  | .vDict xs, .vDict ys => Value.beqDict xs ys
  | _, _ => false

/-- Elementwise equality of value lists (helper for `Value.beq`). -/
def Value.beqList : List Value → List Value → Bool
  | [], [] => true
  | x :: xs, y :: ys => Value.beq x y && Value.beqList xs ys
  | _, _ => false

/-- Entrywise equality of value dicts (helper for `Value.beq`). -/
def Value.beqDict : List (String × Value) → List (String × Value) → Bool
  | [], [] => true
  | (k1, x) :: xs, (k2, y) :: ys => k1 == k2 && Value.beq x y && Value.beqDict xs ys
  | _, _ => false

end

/-- Rendering of a value inside a Python f-string. Scalar renderings are
exact; container renderings are abbreviated (they only occur inside error
messages whose content no claim inspects). -/
def Value.pyStr : Value → String
  | .vNone => "None"
  | .vBool b => if b then "True" else "False"
  | .vInt n => toString n
  | .vStr s => s
  | .vList _ => "[...]"
  | .vDict _ => "\x7b...\x7d"

/-- Python `type(v).__name__`. -/
def Value.pyTypeName : Value → String
  | .vNone => "NoneType"
  | .vBool _ => "bool"
  | .vInt _ => "int"
  | .vStr _ => "str"
  | .vList _ => "list"
  | .vDict _ => "dict"

/-- Configuration validation of the data executor
(`DataNodeExecutor.validate_config`). -/
def data_validate_config (config : VDict) : List String :=
  let operation := dlookup config "operation"
  let opNames := ["pass_through", "extract", "map", "validate", "transform", "store"]
  let invalid :=
    match operation with
    | some op =>
      if op.truthy && !(opNames.any (fun s => op.beq (.vStr s))) then
        ["Invalid operation: " ++ op.pyStr]
      else []
    | none => []
  let opIs (s : String) : Bool :=
    match operation with
    | some op => op.beq (.vStr s)
    | none => false
  let opSpecific :=
    if opIs "extract" then
      if dmem config "fields" then [] else ["extract operation requires \x27fields\x27 configuration"]
    else if opIs "map" then
      if dmem config "mapping" then [] else ["map operation requires \x27mapping\x27 configuration"]
    else if opIs "validate" then
      if dmem config "rules" then [] else ["validate operation requires \x27rules\x27 configuration"]
    else if opIs "transform" then
      if dmem config "transformation" then [] else ["transform operation requires \x27transformation\x27 configuration"]
    else if opIs "store" then
      if dmem config "storage_type" then [] else ["store operation requires \x27storage_type\x27 configuration"]
    else []
  invalid ++ opSpecific

/-- Required inputs of the data executor
(`DataNodeExecutor.get_required_inputs`). -/
def data_required_inputs : List String := ["data"]

/-- Optional inputs of the data executor
(`DataNodeExecutor.get_optional_inputs`). -/
def data_optional_inputs : List String := ["metadata", "schema"]

/-- Value of `data.get(field)` for a field taken from a config list; a
non-string field is never a key of a string-keyed dict. -/
def extractField (d : List (String × Value)) (f : Value) : Value :=
  match f with
  | .vStr s => dlookupD d s .vNone
  | _ => .vNone

/-- Dict key used for a field value in a built result dict; string fields
are exact, other hashables are rendered (no claim touches them). -/
def fieldKey (f : Value) : String := f.pyStr

/-- The `pass_through` operation (`DataNodeExecutor._pass_through`). -/
def data_pass_through (ctx : ExecutionContext) : ExecutionResult :=
  { success := true,
    output := .vDict [("data", dlookupD ctx.inputs "data" .vNone),
                      ("metadata", .vDict [("operation", .vStr "pass_through")])] }

/-- The `extract` operation (`DataNodeExecutor._extract_data`). A list item
that is not a dict makes the Python `.get` raise `AttributeError`, caught
by `execute` into a failure result (message abbreviated). -/
def data_extract (ctx : ExecutionContext) : ExecutionResult :=
  let data := dlookupD ctx.inputs "data" (.vDict [])
  let fields := match dlookup ctx.config "fields" with
    | some (Value.vList l) => l
    | _ => []
  match data with
  | .vDict dl =>
    { success := true,
      output := .vDict
        [("data", .vDict (fields.map (fun f => (fieldKey f, extractField dl f)))),
         ("metadata", .vDict [("operation", .vStr "extract"), ("fields", .vList fields)])] }
  | .vList items =>
    if items.all (fun it => match it with | .vDict _ => true | _ => false) then
      { success := true,
        output := .vDict
          [("data", .vList (items.map (fun it =>
              match it with
              | .vDict dl => .vDict (fields.map (fun f => (fieldKey f, extractField dl f)))
              | _ => .vNone))),
           ("metadata", .vDict [("operation", .vStr "extract"), ("fields", .vList fields)])] }
    else { success := false, output := .vNone, error := some "AttributeError" }
  | _ =>
    { success := false, output := .vNone,
      error := some "Data must be dict or list for extract operation" }

/-- The `map` operation (`DataNodeExecutor._map_data`). -/
def data_map (ctx : ExecutionContext) : ExecutionResult :=
  let data := dlookupD ctx.inputs "data" (.vDict [])
  let mapping := match dlookup ctx.config "mapping" with
    | some (Value.vDict m) => m
    | _ => []
  let mapOne (dl : List (String × Value)) : List (String × Value) :=
    mapping.foldl (fun acc kv =>
      match dlookup dl kv.1 with
      | some v => dinsert acc (fieldKey kv.2) v
      | none => acc) []
  match data with
  | .vDict dl =>
    { success := true,
      output := .vDict
        [("data", .vDict (mapOne dl)),
         ("metadata", .vDict [("operation", .vStr "map"), ("mapping", .vDict mapping)])] }
  | .vList items =>
    if items.all (fun it => match it with | .vDict _ => true | _ => false) then
      { success := true,
        output := .vDict
          [("data", .vList (items.map (fun it =>
              match it with
              | .vDict dl => .vDict (mapOne dl)
              | _ => .vNone))),
           ("metadata", .vDict [("operation", .vStr "map"), ("mapping", .vDict mapping)])] }
    else { success := false, output := .vNone, error := some "TypeError" }
  | _ =>
    { success := false, output := .vNone,
      error := some "Data must be dict or list for map operation" }

/-- Outcome of one validation rule: the result entry to append plus its
verdict, or `none` when the rule adds nothing, or a raised exception.
Faithful for dict-shaped data with string fields; other data shapes make
the Python `in`/indexing raise (collapsed to the exception path). -/
def data_validate_rule (data : Value) (rule : Value) :
    Except String (Option (Bool × Value)) :=
  match rule with
  | .vDict rl =>
    let rule_type := dlookupD rl "type" .vNone
    let field := dlookupD rl "field" .vNone
    let value := dlookupD rl "value" .vNone
    if rule_type.beq (.vStr "required") then
      match data, field with
      | .vDict dl, f =>
        let present :=
          match f with
          | .vStr s => dmem dl s
          | _ => false
        if !present || (match f with
            | .vStr s => (dlookupD dl s .vNone).beq .vNone
            | _ => false) then
          .ok (some (false, .vDict
            [("rule", rule), ("valid", .vBool false),
             ("message", .vStr ("Required field \x27" ++ f.pyStr ++ "\x27 is missing or null"))]))
        else
          .ok (some (true, .vDict
            [("rule", rule), ("valid", .vBool true),
             ("message", .vStr ("Field \x27" ++ f.pyStr ++ "\x27 is present"))]))
      | _, _ => .error "TypeError"
    else if rule_type.beq (.vStr "type") then
      match data, field with
      | .vDict dl, .vStr s =>
        if dmem dl s then
          let actual := (dlookupD dl s .vNone).pyTypeName
          let mismatch :=
            match value with
            | .vStr t => decide (actual ≠ t)
            | _ => true
          if mismatch then
            .ok (some (false, .vDict
              [("rule", rule), ("valid", .vBool false),
               ("message", .vStr ("Field \x27" ++ s ++ "\x27 should be " ++ value.pyStr ++ ", got " ++ actual))]))
          else
            .ok (some (true, .vDict
              [("rule", rule), ("valid", .vBool true),
               ("message", .vStr ("Field \x27" ++ s ++ "\x27 has correct type " ++ value.pyStr))]))
        else .ok none
      | .vDict _, _ => .ok none
      | _, _ => .error "TypeError"
    else .ok none
  | _ => .error "AttributeError"

/-- Fold of `_validate_data`'s rule loop, accumulating the verdict and the
result entries. -/
def data_validate_rules (data : Value) :
    List Value → Bool → List Value → Except String (Bool × List Value)
  | [], valid, acc => .ok (valid, acc)
  | r :: rest, valid, acc =>
    match data_validate_rule data r with
    | .error e => .error e
    | .ok none => data_validate_rules data rest valid acc
    | .ok (some (ok1, entry)) =>
      data_validate_rules data rest (valid && ok1) (acc ++ [entry])

/-- The `validate` operation (`DataNodeExecutor._validate_data`). -/
def data_validate (ctx : ExecutionContext) : ExecutionResult :=
  let data := dlookupD ctx.inputs "data" .vNone
  let rules := match dlookup ctx.config "rules" with
    | some (Value.vList l) => l
    | _ => []
  match data_validate_rules data rules true [] with
  | .error e => { success := false, output := .vNone, error := some e }
  | .ok (is_valid, results) =>
    { success := is_valid,
      output := .vDict
        [("data", data),
         ("metadata", .vDict [("operation", .vStr "validate")]),
         ("validation_results", .vList results)],
      error := if is_valid then none else some "Data validation failed" }

/-- The `transform` operation (`DataNodeExecutor._transform_data`). -/
def data_transform (ctx : ExecutionContext) : ExecutionResult :=
  let data := dlookupD ctx.inputs "data" .vNone
  let transformation := match dlookup ctx.config "transformation" with
    | some (Value.vDict t) => t
    | _ => []
  let upperV (v : Value) : Value :=
    match v with | .vStr s => .vStr s.toUpper | w => w
  let lowerV (v : Value) : Value :=
    match v with | .vStr s => .vStr s.toLower | w => w
  let transformed :=
    if (dlookupD transformation "uppercase" .vNone).truthy then
      match data with
      | .vStr s => .vStr s.toUpper
      | .vDict dl => .vDict (dl.map (fun kv => (kv.1, upperV kv.2)))
      | v => v
    else if (dlookupD transformation "lowercase" .vNone).truthy then
      match data with
      | .vStr s => .vStr s.toLower
      | .vDict dl => .vDict (dl.map (fun kv => (kv.1, lowerV kv.2)))
      | v => v
    else data
  { success := true,
    output := .vDict
      [("data", transformed),
       ("metadata", .vDict [("operation", .vStr "transform"),
                            ("transformation", .vDict transformation)])] }

/-- The `store` operation (`DataNodeExecutor._store_data`). -/
def data_store (ctx : ExecutionContext) : ExecutionResult :=
  let data := dlookupD ctx.inputs "data" .vNone
  let storage_type := dlookupD ctx.config "storage_type" (.vStr "memory")
  { success := true,
    output := .vDict
      [("data", data),
       ("metadata", .vDict [("operation", .vStr "store"),
                            ("storage_type", storage_type),
                            ("stored", .vBool true)])] }

/-- The data executor's `execute` (`DataNodeExecutor.execute`): run the
pre-execution hook, returning the fixed failure result when it rejects;
otherwise dispatch on `config.get("operation", "pass_through")`. -/
def data_node_execute (ctx : ExecutionContext) : ExecutionResult :=
  if !(pre_execute data_validate_config data_required_inputs ctx) then
    { success := false, output := .vNone, error := some "Pre-execution validation failed" }
  else
    let op := dlookupD ctx.config "operation" (.vStr "pass_through")
    if op.beq (.vStr "pass_through") then data_pass_through ctx
    else if op.beq (.vStr "extract") then data_extract ctx
    else if op.beq (.vStr "map") then data_map ctx
    else if op.beq (.vStr "validate") then data_validate ctx
    else if op.beq (.vStr "transform") then data_transform ctx
    else if op.beq (.vStr "store") then data_store ctx
    else { success := false, output := .vNone,
           error := some ("Unknown operation: " ++ op.pyStr) }

/-! ## langgraph_workflows/workflow_executor.py and langgraph_nodes/workflow_nodes.py

The LangGraph executor keeps a single flat state dict: every node's result
dict is merged into it key by key, so later nodes' keys overwrite earlier
ones and untouched keys survive arbitrarily far back. -/

/-- Data-reference resolution
(`LangGraphWorkflowExecutor.resolve_data_reference`): a reference
containing a dot is split, and for a two-part reference the *field* part is
looked up directly in the flat state (the producer part is ignored);
otherwise the whole reference is looked up. All failure paths yield
`None`. -/
def resolve_data_reference (reference : String) (state : VDict) : Value :=
  if strMentions reference "." then
    let parts := reference.splitOn "."
    if parts.length = 2 then
      match dlookup state (parts.getD 1 "") with
      | some v => v
      | none => .vNone
    else .vNone
  else dlookupD state reference .vNone

/-- State merging (`LangGraphWorkflowExecutor.merge_node_result`): flat
`update` of the state with the node's whole result dict, then bookkeeping
under `node_results` (per-node copy) and `nodes_executed` (append). The
`timestamp` bookkeeping reads whatever the result carries. A pre-existing
non-dict value under the bookkeeping keys would make Python raise; the
embedding replaces it (no claim reaches that shape). -/
def merge_node_result (current_state node_result : VDict) (node_id : String) : VDict :=
  let merged := dupdate current_state node_result
  let nr := match dlookup merged "node_results" with
    | some (Value.vDict m) => m
    | _ => []
  let merged := dinsert merged "node_results"
    (.vDict (dinsert nr node_id (.vDict node_result)))
  let ne := match dlookup merged "nodes_executed" with
    | some (Value.vList l) => l
    | _ => []
  let entry : Value := .vDict
    [("node_id", .vStr node_id),
     ("node_type", dlookupD node_result "node_type" (.vStr "unknown")),
     ("status", dlookupD node_result "status" (.vStr "unknown")),
     ("execution_time", dlookupD node_result "timestamp" (.vStr "")),
     ("result", .vDict node_result)]
  dinsert merged "nodes_executed" (.vList (ne ++ [entry]))

/-- Simple data transformation (`LangGraphWorkflowNodes._transform_data`):
uppercase strings, double numbers (Python also doubles floats and bools;
only integers are modelled), keep the rest. -/
def lgw_transform_data (data : VDict) : VDict :=
  data.map (fun kv =>
    (kv.1,
     match kv.2 with
     | .vStr s => .vStr s.toUpper
     | .vInt n => .vInt (n * 2)
     | v => v))

/-- Simple data filtering (`LangGraphWorkflowNodes._filter_data`): keys
absent from the criteria pass through; a string value passes when the
criterion string occurs in it case-insensitively; a numeric value passes
when above its `{key}_min` threshold (default 0); other value shapes under
a criterion are dropped (the Python string branch with a non-string
criterion raises; collapsed to dropping, outside every claim). -/
def lgw_filter_data (data criteria : VDict) : VDict :=
  data.foldl
    (fun acc kv =>
      if dmem criteria kv.1 then
        match kv.2, dlookup criteria kv.1 with
        | .vStr s, some (Value.vStr c) =>
          if strMentions s.toLower c.toLower then dinsert acc kv.1 (.vStr s) else acc
        | .vInt n, _ =>
          let lo := match dlookup criteria (kv.1 ++ "_min") with
            | some (Value.vInt m) => m
            | _ => 0
          if lo < n then dinsert acc kv.1 (.vInt n) else acc
        | _, _ => acc
      else dinsert acc kv.1 kv.2)
    []

/-- Simple data aggregation (`LangGraphWorkflowNodes._aggregate_data`) over
the numeric values of the dict. Python's `avg` uses float division;
integer division stands in for it (outside every claim). -/
def lgw_aggregate_data (data : VDict) (agg_type : String) : VDict :=
  let nums := data.filterMap (fun kv =>
    match kv.2 with | .vInt n => some n | _ => none)
  match nums with
  | [] => data
  | n :: rest =>
    let result : Int :=
      if agg_type = "sum" then nums.sum
      else if agg_type = "avg" then nums.sum / (Int.ofNat nums.length)
      else if agg_type = "max" then rest.foldl max n
      else if agg_type = "min" then rest.foldl min n
      else nums.sum
    dinsert data (agg_type ++ "_result") (.vInt result)

/-- First key of `keys` whose state value exists and is truthy, returning
that value (the `for key in [...]` fallback scan of `data_node`). -/
def firstTruthyKey (state : VDict) : List String → Option Value
  | [] => none
  | k :: rest =>
    match dlookup state k with
    | some v => if v.truthy then some v else firstTruthyKey state rest
    | none => firstTruthyKey state rest

/-- A looked-up value with Python `is None` collapsed
(`x = state[k]` followed by `if x is None:`). -/
def valueOrNone (v : Option Value) : Option Value :=
  match v with
  | some Value.vNone => none
  | some v => some v
  | none => none

/-- The LangGraph data node (`LangGraphWorkflowNodes.data_node`).
Input selection: the configured `input_source` key if present (a stored
`None` falls through, any other value — truthy or not — short-circuits);
then the ordered conventional-key scan `result, output, content, text,
data` over the whole flat state; then `input_data`; then the literal
"No input data available". The chosen data is put through the configured
operation and stored under the output name and under `output_data`,
`content` and `post_data`; status and bookkeeping keys are written last.
A non-string stored `input_source`/`operation` behaves like an unmatched
string (the embedding collapses it to the default). `now` is the
`datetime.now().isoformat()` reading. -/
def lg_data_node (now : String) (state : VDict) : VDict :=
  let input_source := match dlookup state "input_source" with
    | some (Value.vStr s) => s
    | _ => ""
  let output_name := match dlookup state "output_name" with
    | some (Value.vStr s) => s
    | _ => "post_data"
  let operation := match dlookup state "operation" with
    | some (Value.vStr s) => s
    | _ => "pass_through"
  let d1 : Option Value :=
    if input_source ≠ "" then valueOrNone (dlookup state input_source) else none
  let d2 : Option Value :=
    match d1 with
    | some v => some v
    | none => firstTruthyKey state ["result", "output", "content", "text", "data"]
  let d3 : Option Value :=
    match d2 with
    | some v => some v
    | none => valueOrNone (dlookup state "input_data")
  let input_data := d3.getD (.vStr "No input data available")
  let transformedE : Except String Value :=
    if operation = "pass_through" then .ok input_data
    else if operation = "transform" then
      match input_data with
      | .vDict dl => .ok (.vDict (lgw_transform_data dl))
      | _ => .error "AttributeError"
    else if operation = "filter" then
      match input_data with
      | .vDict dl =>
        let criteria := match dlookup state "filter_criteria" with
          | some (Value.vDict c) => c
          | _ => []
        .ok (.vDict (lgw_filter_data dl criteria))
      | _ => .error "AttributeError"
    else if operation = "aggregate" then
      match input_data with
      | .vDict dl =>
        let agg := match dlookup state "aggregation_type" with
          | some (Value.vStr s) => s
          | none => "sum"
          | some v => v.pyStr
        .ok (.vDict (lgw_aggregate_data dl agg))
      | _ => .error "AttributeError"
    else .ok input_data
  match transformedE with
  | .error e =>
    let st := dinsert state "status" (.vStr "failed")
    let st := dinsert st "error" (.vStr e)
    dinsert st "timestamp" (.vStr now)
  | .ok transformed =>
    let st := dinsert state output_name transformed
    let st := dinsert st "output_data" transformed
    let st := dinsert st "content" transformed
    let st := dinsert st "post_data" transformed
    let st := dinsert st "operation" (.vStr operation)
    let st := dinsert st "input_source" (.vStr input_source)
    let st := dinsert st "output_name" (.vStr output_name)
    let st := dinsert st "status" (.vStr "completed")
    dinsert st "timestamp" (.vStr now)

/-! ## Basic dictionary lemmas -/

/-- Lookup after a single dict assignment. -/
theorem dlookup_dinsert {α : Type} (d : List (String × α)) (k j : String) (v : α) :
    dlookup (dinsert d k v) j = if j = k then some v else dlookup d j := by
  induction d with
  | nil =>
    simp only [dinsert, dlookup]
    by_cases h : k = j
    · simp [h]
    · simp [h, Ne.symm h]
  | cons hd tl ih =>
    obtain ⟨k1, v1⟩ := hd
    simp only [dinsert]
    by_cases h1 : k1 = k
    · subst h1
      by_cases h2 : k1 = j
      · simp [dlookup, h2]
      · simp [dlookup, h2, Ne.symm h2]
    · simp only [if_neg h1, dlookup]
      by_cases h2 : k1 = j
      · simp [dlookup, ← h2, h1]
      · simp [dlookup, h2, ih]

/-- Lookup after `depAdd`: the target's list gains the source at its end,
every other key is untouched. -/
theorem dlookup_depAdd (d : List (String × List String)) (t s j : String) :
    dlookup (depAdd d t s) j =
      if j = t then some ((dlookup d t).getD [] ++ [s]) else dlookup d j := by
  induction d with
  | nil =>
    simp only [depAdd, dlookup]
    by_cases h : t = j
    · simp [h]
    · simp [h, Ne.symm h]
  | cons hd tl ih =>
    obtain ⟨k1, v1⟩ := hd
    simp only [depAdd]
    by_cases h1 : k1 = t
    · subst h1
      by_cases h2 : k1 = j
      · simp [dlookup, h2]
      · simp [dlookup, h2, Ne.symm h2]
    · simp only [if_neg h1, dlookup]
      by_cases h2 : k1 = j
      · simp [dlookup, ← h2, h1]
      · simp [dlookup, h2, h1, ih]

/-- The initial dependency dict maps every key it holds to the empty list. -/
theorem dlookupD_init_nil (nodes : List WorkflowNode) (j : String) :
    dlookupD (nodes.map fun n => (n.id, ([] : List String))) j [] = [] := by
  induction nodes with
  | nil => simp [dlookupD, dlookup]
  | cons n tl ih =>
    simp only [List.map_cons, dlookupD, dlookup]
    by_cases h : n.id = j
    · simp [h]
    · simpa [h, dlookupD] using ih

/-! ## Claim C3: dotted string bindings -/

/-- C3 (counterexample): with a string input binding "A.x", the input does
NOT resolve to field `x` of producer `A`'s dict output (the spec's claimed
value 5), nor to `A`'s whole scalar output ("hello"): the dotted string is
looked up as one literal key and, being absent, the input is simply not
bound at all. -/
theorem claim3_dotted_string_counterexample :
    prepare_node_inputs ⟨"N", "t", [("inp", .direct "A.x")], []⟩
      [("A", .vDict [("x", .vInt 5), ("y", .vInt 6)])] = [] ∧
    prepare_node_inputs ⟨"N", "t", [("inp", .direct "A.x")], []⟩
      [("A", .vStr "hello")] = [] := ⟨rfl, rfl⟩

/-- C3 (amended): the field-within-producer resolution with graceful
degradation belongs to the structured binding `{source, field}`: if the
producer's namespace entry is a dict containing the field, the input gets
that field's value; if the field is absent or the entry is not a dict, the
input gets the whole entry verbatim. A string binding is a whole-key direct
lookup: it resolves only when the namespace literally contains the binding
string as a key, and is otherwise absent. -/
theorem claim3_structured_binding_resolution
    (nid nty key source field : String) (ns : VDict) (hs : source ≠ "") :
    (∀ entries v, dlookup ns source = some (.vDict entries) →
      dlookup entries field = some v →
      prepare_node_inputs ⟨nid, nty, [(key, .structured source field)], []⟩ ns
        = [(key, v)]) ∧
    (∀ entries, dlookup ns source = some (.vDict entries) →
      dlookup entries field = none →
      prepare_node_inputs ⟨nid, nty, [(key, .structured source field)], []⟩ ns
        = [(key, .vDict entries)]) ∧
    (∀ out, dlookup ns source = some out → (∀ entries, out ≠ .vDict entries) →
      prepare_node_inputs ⟨nid, nty, [(key, .structured source field)], []⟩ ns
        = [(key, out)]) ∧
    (∀ r, prepare_node_inputs ⟨nid, nty, [(key, .direct r)], []⟩ ns =
        match dlookup ns r with
        | some v => [(key, v)]
        | none => []) := by
  refine ⟨?_, ?_, ?_, ?_⟩
  · intro entries v h1 h2
    simp [prepare_node_inputs, hs, h1, h2, dinsert]
  · intro entries h1 h2
    simp [prepare_node_inputs, hs, h1, h2, dinsert]
  · intro out h1 h2
    cases out <;>
      first
        | exact absurd rfl (h2 _)
        | simp [prepare_node_inputs, hs, h1, dinsert]
  · intro r
    cases h : dlookup ns r <;> simp [prepare_node_inputs, h, dinsert]

/-- C3 (witness): the amended resolution at concrete inputs: the structured
binding with source "A" and field "x" yields 5 from a dict output and the
whole scalar "hello" otherwise. -/
theorem claim3_structured_binding_resolution_witness :
    prepare_node_inputs ⟨"N", "t", [("inp", .structured "A" "x")], []⟩
      [("A", .vDict [("x", .vInt 5), ("y", .vInt 6)])] = [("inp", .vInt 5)] ∧
    prepare_node_inputs ⟨"N", "t", [("inp", .structured "A" "x")], []⟩
      [("A", .vStr "hello")] = [("inp", .vStr "hello")] :=
  ⟨(claim3_structured_binding_resolution "N" "t" "inp" "A" "x"
      [("A", .vDict [("x", .vInt 5), ("y", .vInt 6)])] (by decide)).1
      [("x", .vInt 5), ("y", .vInt 6)] (.vInt 5) rfl rfl,
   (claim3_structured_binding_resolution "N" "t" "inp" "A" "x"
      [("A", .vStr "hello")] (by decide)).2.2.1
      (.vStr "hello") rfl (fun entries h => Value.noConfusion h)⟩

/-! ## Claim C4: missing required input -/

/-- C4 (counterexample): the data executor declares required input "data";
called with it absent, the node fails, but the error text is the fixed
string "Pre-execution validation failed", which does not mention the
missing key — refuting "an error text that mentions the missing key". -/
theorem claim4_missing_input_error_counterexample :
    (data_node_execute ⟨"w", "r", "X", [], [], []⟩).success = false ∧
    (data_node_execute ⟨"w", "r", "X", [], [], []⟩).error =
      some "Pre-execution validation failed" ∧
    strMentions "Pre-execution validation failed" "data" = false :=
  ⟨rfl, rfl, by decide⟩

/-- C4 (amended): whenever the required input "data" is absent from the
resolved inputs, the data executor's `execute` returns the fixed failure
result with error "Pre-execution validation failed" — the operation logic
is never reached (the result is this constant, whatever the configured
operation) — and that error text does not mention the missing key, which is
named only in the log. -/
theorem claim4_missing_input_constant_error (ctx : ExecutionContext)
    (h : dmem ctx.inputs "data" = false) :
    data_node_execute ctx =
      { success := false, output := .vNone,
        error := some "Pre-execution validation failed" } ∧
    strMentions "Pre-execution validation failed" "data" = false := by
  constructor
  · have hpre : pre_execute data_validate_config data_required_inputs ctx = false := by
      unfold pre_execute
      by_cases hc : (data_validate_config ctx.config).isEmpty
      · simp [hc, data_required_inputs, h]
      · simp [hc]
    simp [data_node_execute, hpre]
  · decide

/-- C4 (witness): the amended statement at a concrete context that also
carries a config and an unrelated input. -/
theorem claim4_missing_input_constant_error_witness :
    data_node_execute ⟨"wf", "run", "Y", [("schema", .vStr "s")],
        [("operation", .vStr "extract"), ("fields", .vList [])], []⟩ =
      { success := false, output := .vNone,
        error := some "Pre-execution validation failed" } ∧
    strMentions "Pre-execution validation failed" "data" = false :=
  claim4_missing_input_constant_error _ rfl

/-! ## Claim C5: the results field of the run record -/

/-- C5 (counterexample): a one-node run that completes normally, whose node
produced output 7: the step records the output (status Completed,
outputs 7), but the returned record's `results` namespace has no entry for
the node — it is empty, refuting "for each node of the graph it contains
that node's output keyed by the node's id". -/
theorem claim5_results_empty_counterexample :
    (execute_workflow
        ⟨fun _ => true, fun _ _ => { success := true, output := .vInt 7 }⟩
        "r" { id := "w", nodes := [⟨"N", "t", [], []⟩], edges := [] } []).map
      (fun e => (e.status, dlookup e.results "N",
                 e.steps.map (fun s => (s.status, s.outputs)))) =
    some (.completed, none, [(.completed, .vInt 7)]) := rfl

/-- C5 (amended): the `results` field of every returned `WorkflowExecution`
is empty: the engine keeps its accumulated namespace in the loop-local
`node_outputs` and never assigns `execution.results`; per-node outputs are
recorded only on the steps (each completed step's `outputs` field). -/
theorem claim5_results_always_empty (env : ExecEnv) (runId : String)
    (wf : Workflow) (inputs : VDict) :
    (execute_workflow env runId wf inputs).map (fun e => e.results) =
    (execute_workflow env runId wf inputs).map (fun _ => ([] : VDict)) := by
  cases hW : wave_loop env wf.id runId wf.nodes
      (build_dependency_graph wf.nodes wf.edges) (wf.nodes.length + 1) []
      (dupdate [] inputs)
      (wf.nodes.map fun n => ({ node_id := n.id, node_type := n.type } : ExecutionStep)) with
  | done steps outs => simp [execute_workflow, hW]
  | aborted steps outs err => simp [execute_workflow, hW]
  | fuelOut => simp [execute_workflow, hW]

/-! ## Claim C7: fallback input resolution of the data node -/

/-- C7 (counterexample): node n1's result wrote "content"; node n2
completed afterwards with a result that contains none of the conventional
keys (second conjunct). A data node run on the merged flat state still
picks up n1's "content" value — a value produced two completions back, not
by the most recently completed node — refuting "over the most recently
completed node's output only, never a value produced by an earlier node". -/
theorem claim7_fallback_history_counterexample :
    dlookup (lg_data_node "T"
        (merge_node_result
          (merge_node_result [("workflow_id", .vStr "w")]
            [("content", .vStr "old")] "n1")
          [("foo", .vInt 1)] "n2")) "post_data" = some (.vStr "old") ∧
    firstTruthyKey [("foo", .vInt 1)]
      ["result", "output", "content", "text", "data"] = none := ⟨rfl, rfl⟩

/-- C7 (amended): when no input source is configured, the data node's
fallback scans the fixed ordered key list `result, output, content, text,
data` over the whole accumulated flat state — the merge of every previously
completed node's result, later writes overwriting earlier ones — and stores
the first truthy hit under the output name (default "post_data"). It is
therefore not restricted to the most recently completed node: any earlier
node's value survives until overwritten. -/
theorem claim7_fallback_flat_state (now : String) (st : VDict) (v : Value)
    (hsrc : dlookup st "input_source" = none)
    (hop : dlookup st "operation" = none)
    (hname : dlookup st "output_name" = none)
    (hscan : firstTruthyKey st ["result", "output", "content", "text", "data"]
      = some v) :
    dlookup (lg_data_node now st) "post_data" = some v := by
  unfold lg_data_node
  rw [hsrc, hop, hname, hscan]
  simp [dlookup_dinsert]

/-- C7 (witness): the amended fallback at a concrete flat state whose only
conventional key is "text". -/
theorem claim7_fallback_flat_state_witness :
    dlookup (lg_data_node "T2" [("text", .vStr "hi")]) "post_data" =
      some (.vStr "hi") :=
  claim7_fallback_flat_state "T2" [("text", .vStr "hi")] (.vStr "hi")
    rfl rfl rfl rfl

/-! ## Claim C10: registry instance caching across re-registration -/

/-- C10 (confirmed): once `get_executor(T)` has cached an instance of the
first registered class, a later `register(T, NewClass)` updates the class
table (now returning the new class) but later `get_executor(T)` calls still
return the cached instance of the original class, without touching the
registry state; only after `clear_cache` does `get_executor(T)` instantiate
the newly registered class. -/
theorem claim10_cached_instance_survives_reregistration
    (r0 : NodeExecutorRegistry) (t c1 c2 : String)
    (hni : dlookup r0.instances t = none) :
    (Registry.get_executor (Registry.register r0 t c1) t).1 = some ⟨c1, t⟩ ∧
    (Registry.get_executor (Registry.register
        (Registry.get_executor (Registry.register r0 t c1) t).2 t c2) t).1
      = some ⟨c1, t⟩ ∧
    (Registry.get_executor (Registry.register
        (Registry.get_executor (Registry.register r0 t c1) t).2 t c2) t).2
      = Registry.register
          (Registry.get_executor (Registry.register r0 t c1) t).2 t c2 ∧
    Registry.get_executor_class (Registry.register
        (Registry.get_executor (Registry.register r0 t c1) t).2 t c2) t
      = some c2 ∧
    (Registry.get_executor (Registry.clear_cache (Registry.register
        (Registry.get_executor (Registry.register r0 t c1) t).2 t c2)) t).1
      = some ⟨c2, t⟩ := by
  simp [Registry.register, Registry.get_executor, Registry.get_executor_class,
    Registry.clear_cache, dlookup_dinsert, hni, dlookup]

/-- C10 (witness): the caching behaviour at a concrete registry history
starting from the empty registry. -/
theorem claim10_cached_instance_survives_reregistration_witness :
    (Registry.get_executor (Registry.register {} "data" "DataNodeExecutor")
        "data").1 = some ⟨"DataNodeExecutor", "data"⟩ ∧
    (Registry.get_executor (Registry.register
        (Registry.get_executor (Registry.register {} "data" "DataNodeExecutor")
          "data").2 "data" "OtherExecutor") "data").1
      = some ⟨"DataNodeExecutor", "data"⟩ ∧
    (Registry.get_executor (Registry.register
        (Registry.get_executor (Registry.register {} "data" "DataNodeExecutor")
          "data").2 "data" "OtherExecutor") "data").2
      = Registry.register
          (Registry.get_executor (Registry.register {} "data" "DataNodeExecutor")
            "data").2 "data" "OtherExecutor" ∧
    Registry.get_executor_class (Registry.register
        (Registry.get_executor (Registry.register {} "data" "DataNodeExecutor")
          "data").2 "data" "OtherExecutor") "data"
      = some "OtherExecutor" ∧
    (Registry.get_executor (Registry.clear_cache (Registry.register
        (Registry.get_executor (Registry.register {} "data" "DataNodeExecutor")
          "data").2 "data" "OtherExecutor")) "data").1
      = some ⟨"OtherExecutor", "data"⟩ :=
  claim10_cached_instance_survives_reregistration {} "data" "DataNodeExecutor"
    "OtherExecutor" rfl

/-! ## Claim C6: cancellation -/

/-- The run outcome is independent of when (or whether) a cancellation
request arrives: the loop body never reads the threaded status. -/
theorem wave_loop_cancel_fst (env : ExecEnv) (wfId runId : String)
    (nodes : List WorkflowNode) (deps : List (String × List String))
    (cancelAt : Option Nat) :
    ∀ (fuel waveIdx : Nat) (st : ExecStatus) (executed : List String)
      (outputs : VDict) (steps : List ExecutionStep),
      (wave_loop_cancel env wfId runId nodes deps cancelAt waveIdx fuel st
        executed outputs steps).1 =
      wave_loop env wfId runId nodes deps fuel executed outputs steps := by
  intro fuel
  induction fuel with
  | zero => intro waveIdx st executed outputs steps; rfl
  | succ n ih =>
    intro waveIdx st executed outputs steps
    simp only [wave_loop_cancel, wave_loop]
    by_cases hlt : executed.length < nodes.length
    · simp only [if_pos hlt]
      by_cases hre : (nodes.filter (fun nd =>
          decide (nd.id ∉ executed) &&
          (dlookupD deps nd.id []).all (fun d => decide (d ∈ executed)))).isEmpty = true
      · simp only [if_pos hre]
      · simp only [if_neg hre]
        rcases hpr : process_results
            (run_wave env wfId runId
              (nodes.filter (fun nd =>
                decide (nd.id ∉ executed) &&
                (dlookupD deps nd.id []).all (fun d => decide (d ∈ executed))))
              outputs steps).2 executed outputs with ⟨ex2, out2, err⟩
        cases err <;> simp only [hpr, ih]
    · simp only [if_neg hlt]

/-- C6 (counterexample): a two-node chain with a cancellation request
arriving at wave boundary 1 (after A's wave, before B's): the coordinator
nevertheless runs B's wave (B completes) and the final record's status is
Completed, not Cancelled — refuting "the coordinator observes the
cancellation at the next wave boundary, marks the run Cancelled, and starts
no new wave". -/
theorem claim6_cancel_ignored_counterexample :
    (execute_workflow_with_cancel
        ⟨fun _ => true, fun _ ctx => { success := true, output := .vStr ctx.node_id }⟩
        "r" ⟨"w", [⟨"A", "t", [], []⟩, ⟨"B", "t", [], []⟩], [⟨"A", "B"⟩]⟩
        [] (some 1)).map
      (fun e => (e.status, e.steps.map fun s => s.status)) =
    some (.completed, [.completed, .completed]) := rfl

/-- C6 (amended): cancel_execution returns true exactly when the run id is
in the active table (and then sets the record's status to Cancelled on the
spot), but the coordinator never observes cancellation: whatever wave
boundary a cancellation request arrives at, the remaining waves still run
and the final record is identical to that of an uncancelled run — its
status is overwritten to Completed or Failed on exit, never remaining
Cancelled. -/
theorem claim6_cancel_semantics :
    (∀ (active : ActiveTable) (runId : String),
      (cancel_execution active runId).1 = (dlookup active runId).isSome) ∧
    (∀ (env : ExecEnv) (runId : String) (wf : Workflow) (inputs : VDict)
      (cancelAt : Option Nat),
      execute_workflow_with_cancel env runId wf inputs cancelAt =
        execute_workflow env runId wf inputs) := by
  constructor
  · intro active runId
    unfold cancel_execution
    cases h : dlookup active runId <;> simp [h]
  · intro env runId wf inputs cancelAt
    unfold execute_workflow_with_cancel execute_workflow
    simp only [wave_loop_cancel_fst]

/-! ## Claim C8: dangling edges -/

/-- C8 (counterexample): a graph with the single executable node A (acyclic
on its own, executor registered and succeeding) plus one dangling edge
whose source "X" is not a declared node: the dependency build records the
undeclared source as A's dependency, A can never become ready, and the run
fails with the circular-dependency diagnosis — refuting "the run does not
fail because of a single dangling edge". -/
theorem claim8_dangling_source_counterexample :
    (execute_workflow
        ⟨fun _ => true, fun _ _ => { success := true, output := .vStr "ok" }⟩
        "r" ⟨"w", [⟨"A", "t", [], []⟩], [⟨"X", "A"⟩]⟩ []).map
      (fun e => (e.status, e.error, e.steps.map fun s => s.status)) =
    some (.failed, some (.circularDependency ["A"]), [.pending]) := rfl

/-- Dependency dicts that agree on every declared node id drive the
wavefront loop to the same outcome: the loop only ever consults the
dependency dict at declared node ids. -/
theorem wave_loop_deps_congr (env : ExecEnv) (wfId runId : String)
    (nodes : List WorkflowNode) (d1 d2 : List (String × List String))
    (h : ∀ n ∈ nodes, dlookupD d1 n.id [] = dlookupD d2 n.id []) :
    ∀ (fuel : Nat) (executed : List String) (outputs : VDict)
      (steps : List ExecutionStep),
      wave_loop env wfId runId nodes d1 fuel executed outputs steps =
      wave_loop env wfId runId nodes d2 fuel executed outputs steps := by
  intro fuel
  induction fuel with
  | zero => intro executed outputs steps; rfl
  | succ n ih =>
    intro executed outputs steps
    have hf : nodes.filter (fun nd =>
        decide (nd.id ∉ executed) &&
        (dlookupD d1 nd.id []).all (fun d => decide (d ∈ executed))) =
      nodes.filter (fun nd =>
        decide (nd.id ∉ executed) &&
        (dlookupD d2 nd.id []).all (fun d => decide (d ∈ executed))) := by
      apply List.filter_congr
      intro nd hnd
      rw [h nd hnd]
    simp only [wave_loop, hf]
    by_cases hlt : executed.length < nodes.length
    · simp only [if_pos hlt]
      by_cases hre : (nodes.filter (fun nd =>
          decide (nd.id ∉ executed) &&
          (dlookupD d2 nd.id []).all (fun d => decide (d ∈ executed)))).isEmpty = true
      · simp only [if_pos hre]
      · simp only [if_neg hre]
        rcases hpr : process_results
            (run_wave env wfId runId
              (nodes.filter (fun nd =>
                decide (nd.id ∉ executed) &&
                (dlookupD d2 nd.id []).all (fun d => decide (d ∈ executed))))
              outputs steps).2 executed outputs with ⟨ex2, out2, err⟩
        cases err <;> simp only [hpr, ih]
    · simp only [if_neg hlt]

/-- One build step applied to two dicts that agree on a key set keeps the
agreement on that key set. -/
theorem build_step_congr (d1 d2 : List (String × List String))
    (ids : List String) (h : ∀ j ∈ ids, dlookupD d1 j [] = dlookupD d2 j [])
    (e : WorkflowEdge) :
    ∀ j ∈ ids,
      dlookupD (if e.source ≠ "" ∧ e.target ≠ ""
        then depAdd d1 e.target e.source else d1) j [] =
      dlookupD (if e.source ≠ "" ∧ e.target ≠ ""
        then depAdd d2 e.target e.source else d2) j [] := by
  intro j hj
  by_cases hc : e.source ≠ "" ∧ e.target ≠ ""
  · simp only [if_pos hc, dlookupD, dlookup_depAdd]
    by_cases hjt : j = e.target
    · have := h e.target (hjt ▸ hj)
      simp only [dlookupD] at this
      simp [hjt, this]
    · have := h j hj
      simp only [dlookupD] at this
      simp [hjt, this]
  · simp only [if_neg hc]
    exact h j hj

/-- Folding the same edges over two dicts that agree on a key set keeps the
agreement on that key set. -/
theorem build_fold_congr (edges : List WorkflowEdge) :
    ∀ (d1 d2 : List (String × List String)) (ids : List String),
      (∀ j ∈ ids, dlookupD d1 j [] = dlookupD d2 j []) →
      ∀ j ∈ ids,
        dlookupD (edges.foldl (fun deps e =>
          if e.source ≠ "" ∧ e.target ≠ "" then depAdd deps e.target e.source
          else deps) d1) j [] =
        dlookupD (edges.foldl (fun deps e =>
          if e.source ≠ "" ∧ e.target ≠ "" then depAdd deps e.target e.source
          else deps) d2) j [] := by
  induction edges with
  | nil => intro d1 d2 ids h j hj; exact h j hj
  | cons e rest ih =>
    intro d1 d2 ids h j hj
    simp only [List.foldl_cons]
    exact ih _ _ ids (build_step_congr d1 d2 ids h e) j hj

/-- Removing an edge whose target is undeclared (or either of whose
endpoints is falsy) does not change the dependency dict at any declared
node id. -/
theorem build_dangling_edge (nodes : List WorkflowNode)
    (edges1 edges2 : List WorkflowEdge) (e : WorkflowEdge)
    (he : e.target ∉ nodes.map (fun n => n.id) ∨ e.source = "" ∨ e.target = "") :
    ∀ nd ∈ nodes,
      dlookupD (build_dependency_graph nodes (edges1 ++ e :: edges2)) nd.id [] =
      dlookupD (build_dependency_graph nodes (edges1 ++ edges2)) nd.id [] := by
  intro nd hnd
  unfold build_dependency_graph
  rw [List.foldl_append, List.foldl_append, List.foldl_cons]
  refine build_fold_congr edges2 _ _ (nodes.map fun n => n.id) ?_ nd.id
    (List.mem_map_of_mem _ hnd)
  intro j hj
  by_cases hc : e.source ≠ "" ∧ e.target ≠ ""
  · have hjt : j ≠ e.target := by
      rcases he with h1 | h2 | h3
      · intro hh; exact h1 (hh ▸ hj)
      · exact absurd h2 hc.1
      · exact absurd h3 hc.2
    simp only [if_pos hc, dlookupD, dlookup_depAdd, if_neg hjt]
  · simp only [if_neg hc]

/-- C8 (amended): dependency sets are built by adding each edge's source to
its target's set, creating an entry even for an undeclared target; an edge
whose target is not a declared node (or with an empty endpoint) never
influences the run — removing it leaves the returned record unchanged, so
a dangling-target edge is recoverable. An edge whose source is undeclared
is NOT ignored: it makes its (declared) target permanently unready and the
run fails with the circular-dependency diagnosis (the counterexample). -/
theorem claim8_dangling_target_harmless (env : ExecEnv) (runId wfId : String)
    (nodes : List WorkflowNode) (edges1 edges2 : List WorkflowEdge)
    (e : WorkflowEdge) (inputs : VDict)
    (he : e.target ∉ nodes.map (fun n => n.id) ∨ e.source = "" ∨ e.target = "") :
    execute_workflow env runId ⟨wfId, nodes, edges1 ++ e :: edges2⟩ inputs =
    execute_workflow env runId ⟨wfId, nodes, edges1 ++ edges2⟩ inputs := by
  unfold execute_workflow
  have hw := wave_loop_deps_congr env wfId runId nodes
    (build_dependency_graph nodes (edges1 ++ e :: edges2))
    (build_dependency_graph nodes (edges1 ++ edges2))
    (build_dangling_edge nodes edges1 edges2 e he)
    (nodes.length + 1) [] (dupdate [] inputs)
    (nodes.map fun n => ({ node_id := n.id, node_type := n.type } : ExecutionStep))
  simp only [hw]

/-- C8 (witness): at a concrete graph, appending a dangling-target edge
leaves the run record unchanged. -/
theorem claim8_dangling_target_harmless_witness :
    execute_workflow
      ⟨fun _ => true, fun _ _ => { success := true, output := .vStr "ok" }⟩
      "r" ⟨"w", [⟨"A", "t", [], []⟩], [⟨"A", "X"⟩]⟩ [] =
    execute_workflow
      ⟨fun _ => true, fun _ _ => { success := true, output := .vStr "ok" }⟩
      "r" ⟨"w", [⟨"A", "t", [], []⟩], []⟩ [] :=
  claim8_dangling_target_harmless _ "r" "w" [⟨"A", "t", [], []⟩] [] []
    ⟨"A", "X"⟩ [] (Or.inl (by decide))

/-! ## Machinery for the loop invariants (claims C1, C2, C9) -/

/-- Set-insertion into the executed list (`executed_nodes.add`). -/
def insertId (ex : List String) (x : String) : List String :=
  if x ∈ ex then ex else ex ++ [x]

/-- Membership after folding set-insertions. -/
theorem insertId_fold_mem (ids : List String) :
    ∀ (ex : List String) (x : String),
      x ∈ ids.foldl insertId ex ↔ x ∈ ex ∨ x ∈ ids := by
  induction ids with
  | nil => intro ex x; simp
  | cons i rest ih =>
    intro ex x
    simp only [List.foldl_cons, ih, insertId]
    by_cases hi : i ∈ ex
    · simp only [if_pos hi, List.mem_cons]
      constructor
      · rintro (h | h)
        · exact Or.inl h
        · exact Or.inr (Or.inr h)
      · rintro (h | h | h)
        · exact Or.inl h
        · exact Or.inl (h ▸ hi)
        · exact Or.inr h
    · simp only [if_neg hi, List.mem_append, List.mem_singleton, List.mem_cons]
      tauto

/-- Nodup is preserved by folded set-insertions. -/
theorem insertId_fold_nodup (ids : List String) :
    ∀ (ex : List String), ex.Nodup → (ids.foldl insertId ex).Nodup := by
  induction ids with
  | nil => intro ex h; exact h
  | cons i rest ih =>
    intro ex h
    simp only [List.foldl_cons]
    apply ih
    unfold insertId
    by_cases hi : i ∈ ex
    · simpa [hi] using h
    · simp only [if_neg hi]
      refine List.Nodup.append h (List.nodup_singleton i) ?_
      intro a ha hai
      rw [List.mem_singleton] at hai
      exact hi (hai ▸ ha)

/-- The executed list only grows (as a prefix) under folded insertions. -/
theorem insertId_fold_prefix (ids : List String) :
    ∀ (ex : List String), ∃ t, ids.foldl insertId ex = ex ++ t := by
  induction ids with
  | nil => intro ex; exact ⟨[], by simp⟩
  | cons i rest ih =>
    intro ex
    simp only [List.foldl_cons, insertId]
    by_cases hi : i ∈ ex
    · simpa [hi] using ih ex
    · simp only [if_neg hi]
      obtain ⟨t, ht⟩ := ih (ex ++ [i])
      exact ⟨[i] ++ t, by simp [ht]⟩

/-- Folded insertion of a fresh id strictly grows the executed list. -/
theorem insertId_fold_length (ids : List String) (ex : List String) (x : String)
    (hx : x ∈ ids) (hnx : x ∉ ex) :
    ex.length < (ids.foldl insertId ex).length := by
  obtain ⟨t, ht⟩ := insertId_fold_prefix ids ex
  have hmem : x ∈ ids.foldl insertId ex := (insertId_fold_mem ids ex x).2 (Or.inr hx)
  rw [ht] at hmem
  rcases List.mem_append.1 hmem with h | h
  · exact absurd h hnx
  · have : t ≠ [] := by rintro rfl; simp at h
    rw [ht, List.length_append]
    have : 0 < t.length := List.length_pos.2 this
    omega

/-- Every id in a fold of insertions comes from the start list or the ids. -/
theorem insertId_fold_subset (ids : List String) (ex : List String) (x : String)
    (h : x ∈ ids.foldl insertId ex) : x ∈ ex ∨ x ∈ ids :=
  (insertId_fold_mem ids ex x).1 h

/-- A nonempty list has a member minimising any Nat measure. -/
theorem exists_min_by {α : Type} (f : α → Nat) :
    ∀ (l : List α), l ≠ [] → ∃ m ∈ l, ∀ x ∈ l, f m ≤ f x := by
  intro l
  induction l with
  | nil => intro h; exact absurd rfl h
  | cons a rest ih =>
    intro _
    by_cases hr : rest = []
    · subst hr
      exact ⟨a, List.mem_singleton_self a, by simp⟩
    · obtain ⟨m, hm, hmin⟩ := ih hr
      by_cases hle : f a ≤ f m
      · refine ⟨a, List.mem_cons_self a rest, ?_⟩
        intro x hx
        rcases List.mem_cons.1 hx with rfl | hx
        · exact le_refl _
        · exact le_trans hle (hmin x hx)
      · refine ⟨m, List.mem_cons_of_mem a hm, ?_⟩
        intro x hx
        rcases List.mem_cons.1 hx with rfl | hx
        · exact le_of_not_le hle
        · exact hmin x hx

/-- Dependency entries survive further build steps. -/
theorem dep_fold_mono (edges : List WorkflowEdge) :
    ∀ (init : List (String × List String)) (j x : String),
      x ∈ dlookupD init j [] →
      x ∈ dlookupD (edges.foldl (fun deps e =>
        if e.source ≠ "" ∧ e.target ≠ "" then depAdd deps e.target e.source
        else deps) init) j [] := by
  induction edges with
  | nil => intro init j x h; exact h
  | cons e rest ih =>
    intro init j x h
    simp only [List.foldl_cons]
    apply ih
    by_cases hc : e.source ≠ "" ∧ e.target ≠ ""
    · simp only [if_pos hc, dlookupD, dlookup_depAdd]
      by_cases hj : j = e.target
      · simp only [if_pos hj]
        simp only [dlookupD] at h
        exact List.mem_append.2 (Or.inl (by rwa [hj] at h))
      · simpa only [if_neg hj, dlookupD] using h
    · simpa only [if_neg hc] using h

/-- Every edge with truthy endpoints contributes its source to its target's
dependency list under the build fold, whatever the start dict. -/
theorem dep_fold_mem (edges : List WorkflowEdge) :
    ∀ (init : List (String × List String)) (e : WorkflowEdge),
      e ∈ edges → e.source ≠ "" → e.target ≠ "" →
      e.source ∈ dlookupD (edges.foldl (fun deps e2 =>
        if e2.source ≠ "" ∧ e2.target ≠ "" then depAdd deps e2.target e2.source
        else deps) init) e.target [] := by
  induction edges with
  | nil => intro init e he; exact absurd he (List.not_mem_nil e)
  | cons f rest ih =>
    intro init e he hs ht
    simp only [List.foldl_cons]
    rcases List.mem_cons.1 he with rfl | hmem
    · apply dep_fold_mono
      have hc : e.source ≠ "" ∧ e.target ≠ "" := ⟨hs, ht⟩
      simp only [if_pos hc, dlookupD, dlookup_depAdd, if_pos rfl]
      simp
    · exact ih _ e hmem hs ht

/-- Every edge with truthy endpoints contributes its source to its target's
dependency list in the built graph. -/
theorem build_dep_mem (nodes : List WorkflowNode) (edges : List WorkflowEdge)
    (e : WorkflowEdge) (he : e ∈ edges) (hs : e.source ≠ "") (ht : e.target ≠ "") :
    e.source ∈ dlookupD (build_dependency_graph nodes edges) e.target [] := by
  unfold build_dependency_graph
  exact dep_fold_mem edges _ e he hs ht

/-- Conversely, every dependency entry of the fold traces back to the start
dict or to an edge. -/
theorem dep_fold_src (edges : List WorkflowEdge) :
    ∀ (init : List (String × List String)) (j x : String),
      x ∈ dlookupD (edges.foldl (fun deps e2 =>
        if e2.source ≠ "" ∧ e2.target ≠ "" then depAdd deps e2.target e2.source
        else deps) init) j [] →
      x ∈ dlookupD init j [] ∨ ∃ e ∈ edges, e.source = x ∧ e.target = j := by
  induction edges with
  | nil => intro init j x h; exact Or.inl h
  | cons f rest ih =>
    intro init j x h
    simp only [List.foldl_cons] at h
    rcases ih _ j x h with h2 | ⟨e, he, hex, hej⟩
    · by_cases hc : f.source ≠ "" ∧ f.target ≠ ""
      · simp only [if_pos hc, dlookupD, dlookup_depAdd] at h2
        by_cases hj : j = f.target
        · simp only [if_pos hj] at h2
          rcases List.mem_append.1 h2 with h3 | h3
          · exact Or.inl (by simpa only [dlookupD, hj] using h3)
          · rw [List.mem_singleton] at h3
            exact Or.inr ⟨f, List.mem_cons_self f rest, h3.symm, hj.symm⟩
        · exact Or.inl (by simpa only [if_neg hj, dlookupD] using h2)
      · exact Or.inl (by simpa only [if_neg hc] using h2)
    · exact Or.inr ⟨e, List.mem_cons_of_mem f he, hex, hej⟩

/-- Every dependency entry of the built graph comes from an edge. -/
theorem build_dep_src (nodes : List WorkflowNode) (edges : List WorkflowEdge)
    (j x : String) (h : x ∈ dlookupD (build_dependency_graph nodes edges) j []) :
    ∃ e ∈ edges, e.source = x ∧ e.target = j := by
  unfold build_dependency_graph at h
  rcases dep_fold_src edges _ j x h with h2 | h2
  · rw [dlookupD_init_nil] at h2
    exact absurd h2 (List.not_mem_nil x)
  · exact h2

/-- A step updater that preserves node ids preserves the id sequence. -/
theorem updateStep_map_node_id (steps : List ExecutionStep) (id : String)
    (f : ExecutionStep → ExecutionStep) (hf : ∀ s, (f s).node_id = s.node_id) :
    (updateStep steps id f).map (fun s => s.node_id) =
      steps.map (fun s => s.node_id) := by
  induction steps with
  | nil => rfl
  | cons s rest ih =>
    simp only [updateStep]
    by_cases h : s.node_id = id
    · simp [if_pos h, hf]
    · simp [if_neg h, ih]

/-- Characterisation of membership after `updateStep` over nodup ids: the
step carrying the target id is the image of the unique original, every
other step is untouched. -/
theorem updateStep_mem (steps : List ExecutionStep) (id : String)
    (f : ExecutionStep → ExecutionStep)
    (hnodup : (steps.map (fun s => s.node_id)).Nodup)
    (hf : ∀ s, (f s).node_id = s.node_id) :
    ∀ s2 ∈ updateStep steps id f,
      (s2.node_id = id → ∃ s1 ∈ steps, s1.node_id = id ∧ s2 = f s1) ∧
      (s2.node_id ≠ id → s2 ∈ steps) := by
  induction steps with
  | nil => intro s2 h; exact absurd h (List.not_mem_nil s2)
  | cons s rest ih =>
    intro s2 h2
    simp only [List.map_cons, List.nodup_cons] at hnodup
    simp only [updateStep] at h2
    by_cases h : s.node_id = id
    · rw [if_pos h] at h2
      rcases List.mem_cons.1 h2 with rfl | h3
      · refine ⟨fun _ => ⟨s, List.mem_cons_self s rest, h, rfl⟩, fun hne => ?_⟩
        exact absurd (by rw [hf s, h]) hne
      · constructor
        · intro heq
          exfalso
          apply hnodup.1
          rw [h, ← heq]
          exact List.mem_map_of_mem (fun s => s.node_id) h3
        · intro _
          exact List.mem_cons_of_mem s h3
    · rw [if_neg h] at h2
      rcases List.mem_cons.1 h2 with rfl | h3
      · exact ⟨fun heq => absurd heq h, fun _ => List.mem_cons_self _ _⟩
      · obtain ⟨hc1, hc2⟩ := ih hnodup.2 s2 h3
        refine ⟨fun heq => ?_, fun hne => List.mem_cons_of_mem s (hc2 hne)⟩
        obtain ⟨s1, hs1, he1, he2⟩ := hc1 heq
        exact ⟨s1, List.mem_cons_of_mem s hs1, he1, he2⟩

/-- A step list containing the node id makes the step lookup succeed. -/
theorem find_step_isNone_false (steps : List ExecutionStep) (id : String)
    (h : ∃ s ∈ steps, s.node_id = id) :
    (steps.find? (fun s => s.node_id == id)).isNone = false := by
  obtain ⟨s, hs, he⟩ := h
  induction steps with
  | nil => exact absurd hs (List.not_mem_nil s)
  | cons s1 rest ih =>
    simp only [List.find?]
    rcases List.mem_cons.1 hs with rfl | h3
    · simp [he]
    · by_cases hb : s1.node_id == id
      · simp [hb]
      · simpa [hb] using ih h3

/-- The step mutation `_execute_single_node` performs once the executor has
returned: record inputs, result, outputs and final status. -/
def stepOnResult (inputs : VDict) (r : ExecutionResult) :
    ExecutionStep → ExecutionStep :=
  fun s =>
    { s with
        inputs := inputs,
        result := some r,
        outputs := if r.success then r.output else .vDict [],
        status := if r.success then .completed else .failed,
        error := if r.success then s.error else r.error }

/-- The context `_execute_single_node` constructs for a node. -/
def mkContext (wfId runId : String) (node : WorkflowNode) (outs : VDict) :
    ExecutionContext :=
  ⟨wfId, runId, node.id, prepare_node_inputs node outs, node.config, outs⟩

/-- The updater preserves the node id. -/
theorem stepOnResult_node_id (inputs : VDict) (r : ExecutionResult)
    (s : ExecutionStep) : (stepOnResult inputs r s).node_id = s.node_id := rfl

/-- A successful result marks the step Completed. -/
theorem stepOnResult_status (inputs : VDict) (r : ExecutionResult)
    (s : ExecutionStep) (h : r.success = true) :
    (stepOnResult inputs r s).status = .completed := by
  simp [stepOnResult, h]

/-- One node's task when its step exists and its executor is registered:
the executor runs on the prepared context and the step records the
outcome. -/
theorem run_single_clean (env : ExecEnv) (wfId runId : String)
    (node : WorkflowNode) (outs : VDict) (steps : List ExecutionStep)
    (hreg : env.registered node.type = true)
    (hfind : ∃ s ∈ steps, s.node_id = node.id) :
    run_single_node env wfId runId node outs steps =
      (updateStep steps node.id
        (stepOnResult (prepare_node_inputs node outs)
          (env.execFn node.type (mkContext wfId runId node outs))),
       .res (env.execFn node.type (mkContext wfId runId node outs))) := by
  unfold run_single_node stepOnResult mkContext
  rw [find_step_isNone_false steps node.id hfind, hreg]
  simp

/-- The id sequence of the pairs produced by a wave is the ready list's id
sequence (whatever the outcomes). -/
theorem run_wave_pairs_fst (env : ExecEnv) (wfId runId : String) (outs : VDict) :
    ∀ (ready : List WorkflowNode) (steps : List ExecutionStep)
      (l : List (String × NodeOutcome)),
      ((ready.foldl
          (fun acc node =>
            let sr := run_single_node env wfId runId node outs acc.1
            (sr.1, acc.2 ++ [(node.id, sr.2)]))
          (steps, l)).2).map Prod.fst =
        l.map Prod.fst ++ ready.map (fun nd => nd.id) := by
  intro ready
  induction ready with
  | nil => intro steps l; simp
  | cons n rest ih =>
    intro steps l
    simp only [List.foldl_cons]
    rw [ih]
    simp

/-- A wave over ready nodes whose executors are registered and always
succeed: ids are preserved, ready steps become Completed, other steps are
untouched, and every produced outcome is a successful result. -/
theorem run_wave_clean_aux (env : ExecEnv) (wfId runId : String) (outs : VDict)
    (hsuc : ∀ t ctx, (env.execFn t ctx).success = true) :
    ∀ (ready : List WorkflowNode) (steps : List ExecutionStep)
      (l : List (String × NodeOutcome)),
      (∀ nd ∈ ready, env.registered nd.type = true) →
      (∀ nd ∈ ready, ∃ s ∈ steps, s.node_id = nd.id) →
      (steps.map (fun s => s.node_id)).Nodup →
      ((ready.foldl
          (fun acc node =>
            let sr := run_single_node env wfId runId node outs acc.1
            (sr.1, acc.2 ++ [(node.id, sr.2)]))
          (steps, l)).1.map (fun s => s.node_id) =
        steps.map (fun s => s.node_id)) ∧
      (∀ s2 ∈ (ready.foldl
          (fun acc node =>
            let sr := run_single_node env wfId runId node outs acc.1
            (sr.1, acc.2 ++ [(node.id, sr.2)]))
          (steps, l)).1,
        (s2.node_id ∈ ready.map (fun nd => nd.id) ∧ s2.status = .completed) ∨
        (s2.node_id ∉ ready.map (fun nd => nd.id) ∧ s2 ∈ steps)) ∧
      (∀ p ∈ (ready.foldl
          (fun acc node =>
            let sr := run_single_node env wfId runId node outs acc.1
            (sr.1, acc.2 ++ [(node.id, sr.2)]))
          (steps, l)).2,
        p ∈ l ∨ ∃ r, p.2 = NodeOutcome.res r ∧ r.success = true) := by
  intro ready
  induction ready with
  | nil =>
    intro steps l _ _ _
    refine ⟨rfl, ?_, ?_⟩
    · intro s2 h2
      exact Or.inr ⟨by simp, h2⟩
    · intro p hp
      exact Or.inl hp
  | cons n rest ih =>
    intro steps l hreg hfind hnodup
    simp only [List.foldl_cons]
    rw [run_single_clean env wfId runId n outs steps
      (hreg n (List.mem_cons_self n rest)) (hfind n (List.mem_cons_self n rest))]
    have hids1 := updateStep_map_node_id steps n.id
      (stepOnResult (prepare_node_inputs n outs)
        (env.execFn n.type (mkContext wfId runId n outs)))
      (stepOnResult_node_id _ _)
    have hnodup1 : ((updateStep steps n.id
        (stepOnResult (prepare_node_inputs n outs)
          (env.execFn n.type (mkContext wfId runId n outs)))).map
        (fun s => s.node_id)).Nodup := by
      rw [hids1]; exact hnodup
    have hfind1 : ∀ nd ∈ rest, ∃ s ∈ updateStep steps n.id
        (stepOnResult (prepare_node_inputs n outs)
          (env.execFn n.type (mkContext wfId runId n outs))),
        s.node_id = nd.id := by
      intro nd hnd
      obtain ⟨s, hs, he⟩ := hfind nd (List.mem_cons_of_mem n hnd)
      have hm : nd.id ∈ (updateStep steps n.id
          (stepOnResult (prepare_node_inputs n outs)
            (env.execFn n.type (mkContext wfId runId n outs)))).map
          (fun s => s.node_id) := by
        rw [hids1]
        exact he ▸ List.mem_map_of_mem _ hs
      obtain ⟨s2, hs2, he2⟩ := List.mem_map.1 hm
      exact ⟨s2, hs2, he2⟩
    obtain ⟨ihi, ihii, ihiii⟩ := ih (updateStep steps n.id
        (stepOnResult (prepare_node_inputs n outs)
          (env.execFn n.type (mkContext wfId runId n outs))))
      (l ++ [(n.id, NodeOutcome.res
        (env.execFn n.type (mkContext wfId runId n outs)))])
      (fun nd hnd => hreg nd (List.mem_cons_of_mem n hnd)) hfind1 hnodup1
    refine ⟨by rw [ihi, hids1], ?_, ?_⟩
    · intro s2 h2
      rcases ihii s2 h2 with ⟨hin, hc⟩ | ⟨hnin, hmem⟩
      · exact Or.inl ⟨List.mem_cons_of_mem _ hin, hc⟩
      · by_cases hid : s2.node_id = n.id
        · obtain ⟨s1, hs1, he1, he2⟩ :=
            (updateStep_mem steps n.id _ hnodup (stepOnResult_node_id _ _)
              s2 hmem).1 hid
          refine Or.inl ⟨by simp [hid], ?_⟩
          rw [he2]
          exact stepOnResult_status _ _ _ (hsuc _ _)
        · have hmem2 := (updateStep_mem steps n.id _ hnodup
            (stepOnResult_node_id _ _) s2 hmem).2 hid
          refine Or.inr ⟨?_, hmem2⟩
          simp only [List.map_cons, List.mem_cons]
          rintro (h | h)
          · exact hid h
          · exact hnin h
    · intro p hp
      rcases ihiii p hp with hin | hres
      · rcases List.mem_append.1 hin with h | h
        · exact Or.inl h
        · rw [List.mem_singleton] at h
          subst h
          exact Or.inr ⟨_, rfl, hsuc _ _⟩
      · exact Or.inr hres

/-- Processing a wave of successful results succeeds: the executed set is
extended by set-insertion of the pair ids, in order, with no error. -/
theorem process_results_clean :
    ∀ (pairs : List (String × NodeOutcome)) (ex : List String) (outs : VDict),
      (∀ p ∈ pairs, ∃ r, p.2 = NodeOutcome.res r ∧ r.success = true) →
      ∃ outs2, process_results pairs ex outs =
        ((pairs.map Prod.fst).foldl insertId ex, outs2, none) := by
  intro pairs
  induction pairs with
  | nil => intro ex outs _; exact ⟨outs, rfl⟩
  | cons p rest ih =>
    intro ex outs hp
    obtain ⟨r, hr, hsr⟩ := hp p (List.mem_cons_self p rest)
    obtain ⟨id, oc⟩ := p
    simp only at hr
    subst hr
    simp only [process_results, hsr, if_pos rfl, List.map_cons, List.foldl_cons]
    obtain ⟨outs2, h2⟩ := ih (if id ∈ ex then ex else ex ++ [id])
      (dinsert outs id r.output) (fun q hq => hp q (List.mem_cons_of_mem _ hq))
    refine ⟨outs2, ?_⟩
    simpa [insertId] using h2

/-- The executed list is only ever extended by result processing. -/
theorem process_results_prefix :
    ∀ (pairs : List (String × NodeOutcome)) (ex : List String) (outs : VDict),
      ∃ t, (process_results pairs ex outs).1 = ex ++ t := by
  intro pairs
  induction pairs with
  | nil => intro ex outs; exact ⟨[], by simp [process_results]⟩
  | cons p rest ih =>
    intro ex outs
    obtain ⟨id, oc⟩ := p
    cases oc with
    | exn e => exact ⟨[], by simp [process_results]⟩
    | res r =>
      by_cases hs : r.success = true
      · simp only [process_results]
        rw [if_pos hs]
        by_cases hm : id ∈ ex
        · simpa [hm] using ih ex (dinsert outs id r.output)
        · obtain ⟨t, ht⟩ := ih (ex ++ [id]) (dinsert outs id r.output)
          refine ⟨[id] ++ t, ?_⟩
          simp only [if_neg hm]
          rw [ht]
          simp
      · simp only [process_results]
        rw [if_neg hs]
        by_cases hm : id ∈ ex
        · exact ⟨[], by simp [hm]⟩
        · exact ⟨[id], by simp [hm]⟩

/-- When result processing finishes with no error, every pair's id made it
into the executed set. -/
theorem process_results_none_mem :
    ∀ (pairs : List (String × NodeOutcome)) (ex : List String) (outs : VDict)
      (ex2 : List String) (outs2 : VDict),
      process_results pairs ex outs = (ex2, outs2, none) →
      ∀ p ∈ pairs, p.1 ∈ ex2 := by
  intro pairs
  induction pairs with
  | nil => intro ex outs ex2 outs2 _ p hp; exact absurd hp (List.not_mem_nil p)
  | cons q rest ih =>
    intro ex outs ex2 outs2 heq p hp
    obtain ⟨id, oc⟩ := q
    cases oc with
    | exn e => simp [process_results] at heq
    | res r =>
      by_cases hs : r.success = true
      · simp only [process_results] at heq
        rw [if_pos hs] at heq
        rcases List.mem_cons.1 hp with hpe | hp2
        · subst hpe
          have hmem : id ∈ (if id ∈ ex then ex else ex ++ [id]) := by
            by_cases hm : id ∈ ex
            · simp [hm]
            · simp [hm]
          obtain ⟨t, ht⟩ := process_results_prefix rest
            (if id ∈ ex then ex else ex ++ [id]) (dinsert outs id r.output)
          have hex : ex2 = (if id ∈ ex then ex else ex ++ [id]) ++ t := by
            rw [← ht, heq]
          rw [hex]
          exact List.mem_append.2 (Or.inl hmem)
        · exact ih _ _ _ _ heq p hp2
      · simp only [process_results] at heq
        rw [if_neg hs] at heq
        have h3 := congrArg (fun x => x.2.2) heq
        simp at h3

/-- The wavefront loop never exhausts its fuel when given more fuel than
there are unexecuted nodes: every non-final iteration strictly grows the
executed set. This is the termination of the Python `while` loop. -/
theorem wave_loop_no_fuelOut (env : ExecEnv) (wfId runId : String)
    (nodes : List WorkflowNode) (deps : List (String × List String)) :
    ∀ (fuel : Nat) (executed : List String) (outs : VDict)
      (steps : List ExecutionStep),
      nodes.length - executed.length < fuel →
      wave_loop env wfId runId nodes deps fuel executed outs steps ≠ .fuelOut := by
  intro fuel
  induction fuel with
  | zero => intro executed outs steps h; omega
  | succ n ih =>
    intro executed outs steps hfuel
    simp only [wave_loop]
    by_cases hlt : executed.length < nodes.length
    · simp only [if_pos hlt]
      by_cases hre : (nodes.filter (fun nd =>
          decide (nd.id ∉ executed) &&
          (dlookupD deps nd.id []).all (fun d => decide (d ∈ executed)))).isEmpty = true
      · simp only [if_pos hre]
        intro hcon
        exact LoopOutcome.noConfusion hcon
      · simp only [if_neg hre]
        rcases hpr : process_results
            (run_wave env wfId runId
              (nodes.filter (fun nd =>
                decide (nd.id ∉ executed) &&
                (dlookupD deps nd.id []).all (fun d => decide (d ∈ executed))))
              outs steps).2 executed outs with ⟨ex2, out2, err⟩
        cases err with
        | some e =>
          simp only [hpr]
          intro hcon
          exact LoopOutcome.noConfusion hcon
        | none =>
          simp only [hpr]
          apply ih
          have hne : nodes.filter (fun nd =>
              decide (nd.id ∉ executed) &&
              (dlookupD deps nd.id []).all (fun d => decide (d ∈ executed))) ≠ [] := by
            intro hnil
            rw [hnil] at hre
            exact hre rfl
          obtain ⟨n0, hn0⟩ := List.exists_mem_of_ne_nil _ hne
          have hn0f := List.mem_filter.1 hn0
          have hn0ne : n0.id ∉ executed := by
            have h2 := hn0f.2
            rw [Bool.and_eq_true] at h2
            exact of_decide_eq_true h2.1
          have hfst := run_wave_pairs_fst env wfId runId outs
            (nodes.filter (fun nd =>
              decide (nd.id ∉ executed) &&
              (dlookupD deps nd.id []).all (fun d => decide (d ∈ executed))))
            steps []
          have hidin : n0.id ∈ ((run_wave env wfId runId
              (nodes.filter (fun nd =>
                decide (nd.id ∉ executed) &&
                (dlookupD deps nd.id []).all (fun d => decide (d ∈ executed))))
              outs steps).2).map Prod.fst := by
            unfold run_wave
            rw [hfst]
            simp only [List.map_nil, List.nil_append]
            exact List.mem_map_of_mem _ hn0
          obtain ⟨p, hp, hpe⟩ := List.mem_map.1 hidin
          have hpme : p.1 ∈ ex2 :=
            process_results_none_mem _ _ _ _ _ hpr p hp
          obtain ⟨t, ht⟩ := process_results_prefix
            ((run_wave env wfId runId
              (nodes.filter (fun nd =>
                decide (nd.id ∉ executed) &&
                (dlookupD deps nd.id []).all (fun d => decide (d ∈ executed))))
              outs steps).2) executed outs
          rw [hpr] at ht
          simp only at ht
          have hlen : executed.length < ex2.length := by
            rw [ht]
            rcases t with _ | ⟨x, t2⟩
            · rw [ht] at hpme
              simp only [List.append_nil] at hpme
              exact absurd (hpe ▸ hpme) (hpe ▸ hn0ne)
            · simp
          omega
    · simp only [if_neg hlt]
      intro hcon
      exact LoopOutcome.noConfusion hcon

/-- The fuel-exhaustion artifact never surfaces: `execute_workflow` always
returns a record (the run terminates for every graph and executor). -/
theorem execute_workflow_isSome (env : ExecEnv) (runId : String)
    (wf : Workflow) (inputs : VDict) :
    (execute_workflow env runId wf inputs).isSome = true := by
  cases hW : wave_loop env wf.id runId wf.nodes
      (build_dependency_graph wf.nodes wf.edges) (wf.nodes.length + 1) []
      (dupdate [] inputs)
      (wf.nodes.map fun n => ({ node_id := n.id, node_type := n.type } : ExecutionStep)) with
  | done steps outs => simp [execute_workflow, hW]
  | aborted steps outs err => simp [execute_workflow, hW]
  | fuelOut =>
    exact absurd hW (wave_loop_no_fuelOut env wf.id runId wf.nodes
      (build_dependency_graph wf.nodes wf.edges) (wf.nodes.length + 1) [] _ _
      (by simp))

/-- Unfolding equation for `run_wave` (bridge to the fold form used by the
wave lemmas). -/
theorem run_wave_def (env : ExecEnv) (wfId runId : String)
    (ready : List WorkflowNode) (outs : VDict) (steps : List ExecutionStep) :
    run_wave env wfId runId ready outs steps =
      ready.foldl
        (fun acc node =>
          let sr := run_single_node env wfId runId node outs acc.1
          (sr.1, acc.2 ++ [(node.id, sr.2)]))
        (steps, []) := rfl

/-- A list with a member is not empty. -/
theorem list_isEmpty_false_of_mem {α : Type} {l : List α} {x : α} (h : x ∈ l) :
    l.isEmpty = false := by
  cases l with
  | nil => exact absurd h (List.not_mem_nil x)
  | cons a t => rfl

/-- The wavefront loop on a rank-acyclic dependency graph with registered,
always-succeeding executors runs to normal completion with every step
Completed. `rank` is a topological height certificate: every dependency of
a declared node has strictly smaller rank and is itself declared. -/
theorem wave_loop_all_completed (env : ExecEnv) (wfId runId : String)
    (nodes : List WorkflowNode) (deps : List (String × List String))
    (rank : String → Nat)
    (hndnodup : (nodes.map (fun nd => nd.id)).Nodup)
    (hsuc : ∀ t ctx, (env.execFn t ctx).success = true)
    (hregall : ∀ nd ∈ nodes, env.registered nd.type = true)
    (hdep : ∀ nd ∈ nodes, ∀ p ∈ dlookupD deps nd.id [],
      rank p < rank nd.id ∧ p ∈ nodes.map (fun m => m.id)) :
    ∀ (fuel : Nat) (executed : List String) (outs : VDict)
      (steps : List ExecutionStep),
      nodes.length - executed.length < fuel →
      executed.Nodup →
      (∀ x ∈ executed, x ∈ nodes.map (fun nd => nd.id)) →
      steps.map (fun s => s.node_id) = nodes.map (fun nd => nd.id) →
      (∀ s ∈ steps, s.status =
        if s.node_id ∈ executed then ExecStatus.completed else .pending) →
      ∃ steps2 outs2,
        wave_loop env wfId runId nodes deps fuel executed outs steps =
          .done steps2 outs2 ∧
        ∀ s ∈ steps2, s.status = .completed := by
  intro fuel
  induction fuel with
  | zero => intro executed outs steps h; omega
  | succ n ih =>
    intro executed outs steps hfuel hexnodup hexsub hids hinv
    simp only [wave_loop]
    by_cases hlt : executed.length < nodes.length
    · simp only [if_pos hlt]
      set ready : List WorkflowNode := nodes.filter (fun nd =>
        decide (nd.id ∉ executed) &&
        (dlookupD deps nd.id []).all (fun d => decide (d ∈ executed))) with hready
      have hex : ∃ nd ∈ nodes, nd.id ∉ executed := by
        by_contra hall
        push_neg at hall
        have hsub : nodes.map (fun nd => nd.id) ⊆ executed := by
          intro x hx
          obtain ⟨nd, hnd, he⟩ := List.mem_map.1 hx
          exact he ▸ hall nd hnd
        have := (hndnodup.subperm hsub).length_le
        simp only [List.length_map] at this
        omega
      have huneq : nodes.filter (fun nd => decide (nd.id ∉ executed)) ≠ [] := by
        obtain ⟨nd, hnd, hne⟩ := hex
        intro hnil
        have : nd ∈ nodes.filter (fun nd => decide (nd.id ∉ executed)) :=
          List.mem_filter.2 ⟨hnd, decide_eq_true hne⟩
        rw [hnil] at this
        exact absurd this (List.not_mem_nil nd)
      obtain ⟨m, hmu, hmin⟩ := exists_min_by (fun nd => rank nd.id) _ huneq
      have hmnodes := (List.mem_filter.1 hmu).1
      have hmne : m.id ∉ executed :=
        of_decide_eq_true (List.mem_filter.1 hmu).2
      have hmready : m ∈ ready := by
        rw [hready]
        refine List.mem_filter.2 ⟨hmnodes, ?_⟩
        rw [Bool.and_eq_true]
        refine ⟨decide_eq_true hmne, ?_⟩
        rw [List.all_eq_true]
        intro d hd
        apply decide_eq_true
        by_contra hdne
        obtain ⟨hrk, hdid⟩ := hdep m hmnodes d hd
        obtain ⟨ndd, hndd, hde⟩ := List.mem_map.1 hdid
        have hin2 : ndd ∈ nodes.filter (fun nd => decide (nd.id ∉ executed)) :=
          List.mem_filter.2 ⟨hndd, decide_eq_true (hde ▸ hdne)⟩
        have := hmin ndd hin2
        rw [hde] at this
        omega
      rw [list_isEmpty_false_of_mem hmready]
      simp only [Bool.false_eq_true, if_false]
      rw [run_wave_def]
      have hrsub : ∀ nd ∈ ready, nd ∈ nodes := by
        intro nd hnd
        rw [hready] at hnd
        exact (List.mem_filter.1 hnd).1
      have hfind2 : ∀ nd ∈ ready, ∃ s ∈ steps, s.node_id = nd.id := by
        intro nd hnd
        have : nd.id ∈ steps.map (fun s => s.node_id) := by
          rw [hids]
          exact List.mem_map_of_mem _ (hrsub nd hnd)
        obtain ⟨s, hsm, hse⟩ := List.mem_map.1 this
        exact ⟨s, hsm, hse⟩
      have hsnodup : (steps.map (fun s => s.node_id)).Nodup := by
        rw [hids]; exact hndnodup
      obtain ⟨haux1, haux2, haux3⟩ := run_wave_clean_aux env wfId runId outs hsuc
        ready steps [] (fun nd hnd => hregall nd (hrsub nd hnd)) hfind2 hsnodup
      have hpfst := run_wave_pairs_fst env wfId runId outs ready steps []
      have haux3b : ∀ p ∈ (ready.foldl
          (fun acc node =>
            let sr := run_single_node env wfId runId node outs acc.1
            (sr.1, acc.2 ++ [(node.id, sr.2)]))
          (steps, [])).2, ∃ r, p.2 = NodeOutcome.res r ∧ r.success = true := by
        intro p hp
        rcases haux3 p hp with h | h
        · exact absurd h (List.not_mem_nil p)
        · exact h
      obtain ⟨outs2, hpc⟩ := process_results_clean _ executed outs haux3b
      rw [hpc]
      apply ih
      · have hgrow := insertId_fold_length
          (((ready.foldl
            (fun acc node =>
              let sr := run_single_node env wfId runId node outs acc.1
              (sr.1, acc.2 ++ [(node.id, sr.2)]))
            (steps, [])).2).map Prod.fst) executed m.id
          (by rw [hpfst]
              simp only [List.map_nil, List.nil_append]
              exact List.mem_map_of_mem _ hmready) hmne
        omega
      · exact insertId_fold_nodup _ _ hexnodup
      · intro x hx
        rcases insertId_fold_subset _ _ _ hx with h | h
        · exact hexsub x h
        · rw [hpfst] at h
          simp only [List.map_nil, List.nil_append] at h
          obtain ⟨nd, hnd, he⟩ := List.mem_map.1 h
          exact he ▸ List.mem_map_of_mem _ (hrsub nd hnd)
      · rw [haux1, hids]
      · intro s hs
        rcases haux2 s hs with ⟨hin, hc⟩ | ⟨hnin, hmem⟩
        · rw [hc]
          have hmem2 : s.node_id ∈ (((ready.foldl
              (fun acc node =>
                let sr := run_single_node env wfId runId node outs acc.1
                (sr.1, acc.2 ++ [(node.id, sr.2)]))
              (steps, [])).2).map Prod.fst).foldl insertId executed := by
            apply (insertId_fold_mem _ _ _).2
            right
            rw [hpfst]
            simpa using hin
          rw [if_pos hmem2]
        · have hiff : s.node_id ∈ (((ready.foldl
              (fun acc node =>
                let sr := run_single_node env wfId runId node outs acc.1
                (sr.1, acc.2 ++ [(node.id, sr.2)]))
              (steps, [])).2).map Prod.fst).foldl insertId executed ↔
              s.node_id ∈ executed := by
            rw [insertId_fold_mem, hpfst]
            simp only [List.map_nil, List.nil_append]
            constructor
            · rintro (h | h)
              · exact h
              · exact absurd h hnin
            · exact Or.inl
          rw [hinv s hmem]
          by_cases hm : s.node_id ∈ executed
          · rw [if_pos hm, if_pos (hiff.2 hm)]
          · rw [if_neg hm, if_neg (fun hh => hm (hiff.1 hh))]
    · simp only [if_neg hlt]
      refine ⟨steps, outs, rfl, ?_⟩
      intro s hs
      have hsid : s.node_id ∈ nodes.map (fun nd => nd.id) := by
        rw [← hids]
        exact List.mem_map_of_mem _ hs
      have hsex : s.node_id ∈ executed := by
        by_contra hne
        have hcons : (s.node_id :: executed).Nodup :=
          List.nodup_cons.2 ⟨hne, hexnodup⟩
        have hsubc : (s.node_id :: executed) ⊆ nodes.map (fun nd => nd.id) := by
          intro x hx
          rcases List.mem_cons.1 hx with rfl | hx2
          · exact hsid
          · exact hexsub x hx2
        have := (hcons.subperm hsubc).length_le
        simp only [List.length_cons, List.length_map] at this
        omega
      rw [hinv s hs, if_pos hsex]

/-! ## Claim C9: termination and terminal states on acyclic graphs -/

/-- C9 (counterexample): the acyclic two-node chain A -> B where A's
executor fails: the loop terminates, but B's step remains Pending in the
final record — Pending is not a terminal state — refuting "every node's
ExecutionStep reaches a terminal state (Completed or Failed)". -/
theorem claim9_pending_after_failure_counterexample :
    (execute_workflow
        ⟨fun _ => true, fun _ ctx => if ctx.node_id = "A"
          then { success := false, output := .vNone, error := some "boom" }
          else { success := true, output := .vStr "ok" }⟩
        "r" ⟨"w", [⟨"A", "t", [], []⟩, ⟨"B", "t", [], []⟩], [⟨"A", "B"⟩]⟩ []).map
      (fun e => (e.status, e.steps.map fun s => (s.node_id, s.status))) =
      some (.failed, [("A", .failed), ("B", .pending)]) ∧
    (ExecStatus.pending ≠ ExecStatus.completed ∧
      ExecStatus.pending ≠ ExecStatus.failed) :=
  ⟨rfl, by decide⟩

/-- C9 (amended): the wavefront loop terminates on every graph and every
executor behaviour (the run record is always returned; first conjunct).
On an acyclic well-formed graph — edge-monotone rank certificate, declared
edge sources, unique node ids — with registered and succeeding executors,
the run completes and every step reaches Completed; when some node fails,
the downstream steps instead remain Pending (the counterexample). -/
theorem claim9_acyclic_termination_and_success
    (env : ExecEnv) (runId : String) (wf : Workflow) (inputs : VDict)
    (rank : String → Nat)
    (hacyc : ∀ e ∈ wf.edges, rank e.source < rank e.target)
    (hdecl : ∀ e ∈ wf.edges, e.source ∈ wf.nodes.map (fun nd => nd.id))
    (hnodup : (wf.nodes.map (fun nd => nd.id)).Nodup)
    (hreg : ∀ nd ∈ wf.nodes, env.registered nd.type = true)
    (hsuc : ∀ t ctx, (env.execFn t ctx).success = true) :
    (∀ (env2 : ExecEnv) (runId2 : String) (wf2 : Workflow) (inputs2 : VDict),
      (execute_workflow env2 runId2 wf2 inputs2).isSome = true) ∧
    (execute_workflow env runId wf inputs).map
      (fun e => (e.status,
        e.steps.all (fun s => s.status == ExecStatus.completed))) =
      some (.completed, true) := by
  refine ⟨execute_workflow_isSome, ?_⟩
  have hdep : ∀ nd ∈ wf.nodes,
      ∀ p ∈ dlookupD (build_dependency_graph wf.nodes wf.edges) nd.id [],
      rank p < rank nd.id ∧ p ∈ wf.nodes.map (fun m => m.id) := by
    intro nd hnd p hp
    obtain ⟨e, he, hsrc, htgt⟩ := build_dep_src wf.nodes wf.edges nd.id p hp
    exact ⟨by rw [← hsrc, ← htgt]; exact hacyc e he, hsrc ▸ hdecl e he⟩
  obtain ⟨steps2, outs2, hW, hall⟩ := wave_loop_all_completed env wf.id runId
    wf.nodes (build_dependency_graph wf.nodes wf.edges) rank hnodup hsuc hreg
    hdep (wf.nodes.length + 1) [] (dupdate [] inputs)
    (wf.nodes.map fun n => ({ node_id := n.id, node_type := n.type } : ExecutionStep))
    (by simp) List.nodup_nil (fun x hx => absurd hx (List.not_mem_nil x))
    (by simp)
    (by intro s hs
        obtain ⟨nd, hnd, he⟩ := List.mem_map.1 hs
        rw [← he]
        simp)
  simp only [execute_workflow, hW, Option.map_some', Option.some.injEq,
    Prod.mk.injEq]
  refine ⟨trivial, ?_⟩
  rw [List.all_eq_true]
  intro s hs
  rw [beq_iff_eq]
  exact hall s hs

/-- C9 (witness): a concrete three-node chain with succeeding executors
completes with all steps Completed (second conjunct of the amended
theorem, instantiated). -/
theorem claim9_acyclic_termination_and_success_witness :
    (execute_workflow
        ⟨fun _ => true, fun _ ctx => { success := true, output := .vStr ctx.node_id }⟩
        "r" ⟨"w", [⟨"A", "t", [], []⟩, ⟨"B", "t", [], []⟩, ⟨"C", "t", [], []⟩],
          [⟨"A", "B"⟩, ⟨"B", "C"⟩]⟩ []).map
      (fun e => (e.status,
        e.steps.all (fun s => s.status == ExecStatus.completed))) =
      some (.completed, true) :=
  (claim9_acyclic_termination_and_success
    ⟨fun _ => true, fun _ ctx => { success := true, output := .vStr ctx.node_id }⟩
    "r" ⟨"w", [⟨"A", "t", [], []⟩, ⟨"B", "t", [], []⟩, ⟨"C", "t", [], []⟩],
      [⟨"A", "B"⟩, ⟨"B", "C"⟩]⟩ []
    (fun s => if s = "A" then 0 else if s = "B" then 1 else 2)
    (by decide) (by decide) (by decide) (by decide) (fun _ _ => rfl)).2

/-! ## Claim C2: cycles -/

/-- The wavefront loop with registered, always-succeeding executors and a
nonempty dependency-closed set S of declared node ids (every member has a
dependency inside S — the closure a cycle generates): no member of S ever
executes, and the loop ends in the circular-dependency abort whose
remaining list contains all of S. -/
theorem wave_loop_stuck (env : ExecEnv) (wfId runId : String)
    (nodes : List WorkflowNode) (deps : List (String × List String))
    (S : List String)
    (hndnodup : (nodes.map (fun nd => nd.id)).Nodup)
    (hsuc : ∀ t ctx, (env.execFn t ctx).success = true)
    (hregall : ∀ nd ∈ nodes, env.registered nd.type = true)
    (hSne : S ≠ [])
    (hSdecl : ∀ x ∈ S, x ∈ nodes.map (fun nd => nd.id))
    (hScl : ∀ x ∈ S, ∃ p ∈ S, p ∈ dlookupD deps x []) :
    ∀ (fuel : Nat) (executed : List String) (outs : VDict)
      (steps : List ExecutionStep),
      nodes.length - executed.length < fuel →
      executed.Nodup →
      (∀ x ∈ executed, x ∈ nodes.map (fun nd => nd.id)) →
      steps.map (fun s => s.node_id) = nodes.map (fun nd => nd.id) →
      (∀ x ∈ S, x ∉ executed) →
      ∃ steps2 outs2 rem,
        wave_loop env wfId runId nodes deps fuel executed outs steps =
          .aborted steps2 outs2 (.circularDependency rem) ∧
        ∀ x ∈ S, x ∈ rem := by
  intro fuel
  induction fuel with
  | zero => intro executed outs steps h; omega
  | succ n ih =>
    intro executed outs steps hfuel hexnodup hexsub hids hdisj
    obtain ⟨x0, hx0⟩ := List.exists_mem_of_ne_nil S hSne
    have hlt : executed.length < nodes.length := by
      have hcons : (x0 :: executed).Nodup :=
        List.nodup_cons.2 ⟨hdisj x0 hx0, hexnodup⟩
      have hsubc : (x0 :: executed) ⊆ nodes.map (fun nd => nd.id) := by
        intro y hy
        rcases List.mem_cons.1 hy with rfl | hy2
        · exact hSdecl _ hx0
        · exact hexsub y hy2
      have := (hcons.subperm hsubc).length_le
      simp only [List.length_cons, List.length_map] at this
      omega
    simp only [wave_loop, if_pos hlt]
    set ready : List WorkflowNode := nodes.filter (fun nd =>
      decide (nd.id ∉ executed) &&
      (dlookupD deps nd.id []).all (fun d => decide (d ∈ executed))) with hready
    have hSready : ∀ x ∈ S, x ∉ ready.map (fun nd => nd.id) := by
      intro x hx hmem
      obtain ⟨nd, hnd, he⟩ := List.mem_map.1 hmem
      rw [hready] at hnd
      have hcond := (List.mem_filter.1 hnd).2
      rw [Bool.and_eq_true] at hcond
      have hall := hcond.2
      rw [List.all_eq_true] at hall
      obtain ⟨p, hpS, hpd⟩ := hScl x hx
      have : p ∈ executed := by
        have := hall p (by rw [he]; exact hpd)
        exact of_decide_eq_true this
      exact hdisj p hpS this
    by_cases hre : ready.isEmpty = true
    · rw [hre]
      simp only [if_true]
      refine ⟨steps, outs,
        ((nodes.filter (fun nd => decide (nd.id ∉ executed))).map
          (fun nd => nd.id)), rfl, ?_⟩
      intro x hx
      obtain ⟨nd, hnd, he⟩ := List.mem_map.1 (hSdecl x hx)
      have : nd ∈ nodes.filter (fun nd => decide (nd.id ∉ executed)) :=
        List.mem_filter.2 ⟨hnd, decide_eq_true (he ▸ hdisj x hx)⟩
      exact he ▸ List.mem_map_of_mem _ this
    · simp only [hre]
      simp only [Bool.false_eq_true, if_false]
      rw [run_wave_def]
      have hrsub : ∀ nd ∈ ready, nd ∈ nodes := by
        intro nd hnd
        rw [hready] at hnd
        exact (List.mem_filter.1 hnd).1
      have hfind2 : ∀ nd ∈ ready, ∃ s ∈ steps, s.node_id = nd.id := by
        intro nd hnd
        have : nd.id ∈ steps.map (fun s => s.node_id) := by
          rw [hids]
          exact List.mem_map_of_mem _ (hrsub nd hnd)
        obtain ⟨s, hsm, hse⟩ := List.mem_map.1 this
        exact ⟨s, hsm, hse⟩
      have hsnodup : (steps.map (fun s => s.node_id)).Nodup := by
        rw [hids]; exact hndnodup
      obtain ⟨haux1, haux2, haux3⟩ := run_wave_clean_aux env wfId runId outs hsuc
        ready steps [] (fun nd hnd => hregall nd (hrsub nd hnd)) hfind2 hsnodup
      have hpfst := run_wave_pairs_fst env wfId runId outs ready steps []
      have haux3b : ∀ p ∈ (ready.foldl
          (fun acc node =>
            let sr := run_single_node env wfId runId node outs acc.1
            (sr.1, acc.2 ++ [(node.id, sr.2)]))
          (steps, [])).2, ∃ r, p.2 = NodeOutcome.res r ∧ r.success = true := by
        intro p hp
        rcases haux3 p hp with h | h
        · exact absurd h (List.not_mem_nil p)
        · exact h
      obtain ⟨outs2, hpc⟩ := process_results_clean _ executed outs haux3b
      rw [hpc]
      apply ih
      · have hrne : ready ≠ [] := by
          intro hnil
          rw [hnil] at hre
          exact hre rfl
        obtain ⟨m, hm⟩ := List.exists_mem_of_ne_nil ready hrne
        have hmne : m.id ∉ executed := by
          have hcond := (List.mem_filter.1 (hready ▸ hm)).2
          rw [Bool.and_eq_true] at hcond
          exact of_decide_eq_true hcond.1
        have hgrow := insertId_fold_length
          (((ready.foldl
            (fun acc node =>
              let sr := run_single_node env wfId runId node outs acc.1
              (sr.1, acc.2 ++ [(node.id, sr.2)]))
            (steps, [])).2).map Prod.fst) executed m.id
          (by rw [hpfst]
              simp only [List.map_nil, List.nil_append]
              exact List.mem_map_of_mem _ hm) hmne
        omega
      · exact insertId_fold_nodup _ _ hexnodup
      · intro x hx
        rcases insertId_fold_subset _ _ _ hx with h | h
        · exact hexsub x h
        · rw [hpfst] at h
          simp only [List.map_nil, List.nil_append] at h
          obtain ⟨nd, hnd, he⟩ := List.mem_map.1 h
          exact he ▸ List.mem_map_of_mem _ (hrsub nd hnd)
      · rw [haux1, hids]
      · intro x hx hmem
        rcases insertId_fold_subset _ _ _ hmem with h | h
        · exact hdisj x hx h
        · rw [hpfst] at h
          simp only [List.map_nil, List.nil_append] at h
          exact hSready x hx h

/-- C2 (counterexample): the graph has the cycle A <-> B among its declared
nodes, but node C (outside the cycle) runs in the first wave and fails; the
run is Failed, yet its error is the node-failure message naming only C — it
names no node of the cycle, refuting "a run-level error string that names
at least one node in the cycle" for every cyclic graph. -/
theorem claim2_cycle_error_counterexample :
    (execute_workflow
        ⟨fun _ => true, fun _ ctx => if ctx.node_id = "C"
          then { success := false, output := .vNone, error := some "boom" }
          else { success := true, output := .vStr "ok" }⟩
        "r" ⟨"w", [⟨"A", "t", [], []⟩, ⟨"B", "t", [], []⟩, ⟨"C", "t", [], []⟩],
          [⟨"A", "B"⟩, ⟨"B", "A"⟩]⟩ []).map
      (fun e => (e.status, e.error)) =
    some (.failed, some (.nodeFailed "C" (some "boom"))) := rfl

/-- C2 (amended): on a graph whose declared nodes contain a nonempty
dependency-closed node set S fed by edges with nonempty endpoint ids (the
closure any cycle generates), provided every executed node's executor is
registered and succeeds — otherwise the run fails earlier with that node's
own error — the run is Failed with the circular-dependency diagnosis, whose
remaining list names every node of S (in particular at least one node of
the cycle). -/
theorem claim2_cycle_deadlock_names_cycle
    (env : ExecEnv) (runId : String) (wf : Workflow) (inputs : VDict)
    (S : List String)
    (hSne : S ≠ [])
    (hSdecl : ∀ x ∈ S, x ∈ wf.nodes.map (fun nd => nd.id))
    (hScycle : ∀ x ∈ S, ∃ e ∈ wf.edges, e.target = x ∧ e.source ∈ S ∧
      e.source ≠ "")
    (hSnz : ∀ x ∈ S, x ≠ "")
    (hnodup : (wf.nodes.map (fun nd => nd.id)).Nodup)
    (hreg : ∀ nd ∈ wf.nodes, env.registered nd.type = true)
    (hsuc : ∀ t ctx, (env.execFn t ctx).success = true) :
    (execute_workflow env runId wf inputs).map
      (fun e => (e.status,
        match e.error with
        | some (RunError.circularDependency rem) =>
          S.all (fun x => decide (x ∈ rem))
        | _ => false)) = some (.failed, true) := by
  have hScl : ∀ x ∈ S, ∃ p ∈ S,
      p ∈ dlookupD (build_dependency_graph wf.nodes wf.edges) x [] := by
    intro x hx
    obtain ⟨e, he, htgt, hsrcS, hsrcnz⟩ := hScycle x hx
    refine ⟨e.source, hsrcS, ?_⟩
    have := build_dep_mem wf.nodes wf.edges e he hsrcnz (htgt ▸ hSnz x hx)
    rwa [htgt] at this
  obtain ⟨steps2, outs2, rem, hW, hmem⟩ := wave_loop_stuck env wf.id runId
    wf.nodes (build_dependency_graph wf.nodes wf.edges) S hnodup hsuc hreg
    hSne hSdecl hScl (wf.nodes.length + 1) [] (dupdate [] inputs)
    (wf.nodes.map fun n => ({ node_id := n.id, node_type := n.type } : ExecutionStep))
    (by simp) List.nodup_nil (fun x hx => absurd hx (List.not_mem_nil x))
    (by simp) (fun x hx => List.not_mem_nil x)
  simp only [execute_workflow, hW, Option.map_some', Option.some.injEq,
    Prod.mk.injEq]
  refine ⟨trivial, ?_⟩
  rw [List.all_eq_true]
  intro x hx
  exact decide_eq_true (hmem x hx)

/-- C2 (witness): the amended theorem at a concrete two-node cycle with
succeeding executors: the run fails with the deadlock diagnosis naming
both cycle nodes. -/
theorem claim2_cycle_deadlock_names_cycle_witness :
    (execute_workflow
        ⟨fun _ => true, fun _ ctx => { success := true, output := .vStr ctx.node_id }⟩
        "r" ⟨"w", [⟨"A", "t", [], []⟩, ⟨"B", "t", [], []⟩],
          [⟨"A", "B"⟩, ⟨"B", "A"⟩]⟩ []).map
      (fun e => (e.status,
        match e.error with
        | some (RunError.circularDependency rem) =>
          ["A", "B"].all (fun x => decide (x ∈ rem))
        | _ => false)) = some (.failed, true) :=
  claim2_cycle_deadlock_names_cycle
    ⟨fun _ => true, fun _ ctx => { success := true, output := .vStr ctx.node_id }⟩
    "r" ⟨"w", [⟨"A", "t", [], []⟩, ⟨"B", "t", [], []⟩],
      [⟨"A", "B"⟩, ⟨"B", "A"⟩]⟩ [] ["A", "B"]
    (by decide) (by decide) (by decide) (by decide) (by decide) (by decide)
    (fun _ _ => rfl)

/-! ## Claim C1: abort on first failure in a linear chain -/

/-- C1 (confirmed): in the three-node linear chain A -> B -> C where A's
executor succeeds and B's executor returns success=false, the run record is
Failed with the `Node B failed: ...` error, A's step is Completed with its
output recorded, B's step is Failed with B's error recorded, and C's step
is still Pending with none of its fields touched — no wave after B's wave
was scheduled. -/
theorem claim1_chain_abort_on_failure
    (env : ExecEnv) (runId ty : String) (inputs : VDict)
    (outA : Value) (eA : Option String) (mA : Option Value)
    (outB : Value) (eB : Option String) (mB : Option Value)
    (hreg : env.registered ty = true)
    (hA : env.execFn ty ⟨"wf", runId, "A", [], [], dupdate [] inputs⟩ =
      { success := true, output := outA, error := eA, metadata := mA })
    (hB : env.execFn ty ⟨"wf", runId, "B", [], [],
        dinsert (dupdate [] inputs) "A" outA⟩ =
      { success := false, output := outB, error := eB, metadata := mB }) :
    execute_workflow env runId
      ⟨"wf", [⟨"A", ty, [], []⟩, ⟨"B", ty, [], []⟩, ⟨"C", ty, [], []⟩],
        [⟨"A", "B"⟩, ⟨"B", "C"⟩]⟩ inputs =
    some { execution_id := runId, workflow_id := "wf", status := .failed,
           steps := [
             { node_id := "A", node_type := ty, status := .completed,
               result := some ⟨true, outA, eA, mA⟩, error := none,
               inputs := [], outputs := outA },
             { node_id := "B", node_type := ty, status := .failed,
               result := some ⟨false, outB, eB, mB⟩, error := eB,
               inputs := [], outputs := .vDict [] },
             { node_id := "C", node_type := ty, status := .pending } ],
           results := [],
           error := some (.nodeFailed "B" eB) } := by
  simp [execute_workflow, wave_loop, run_wave, run_single_node, process_results,
    updateStep, prepare_node_inputs, build_dependency_graph, depAdd,
    dlookupD, dlookup, List.find?, List.filter, hreg, hA, hB]

/-- C1 (witness): the chain scenario at a concrete environment in which B's
executor reports failure "boom". -/
theorem claim1_chain_abort_on_failure_witness :
    execute_workflow
      ⟨fun _ => true, fun _ ctx => if ctx.node_id = "B"
        then { success := false, output := .vNone, error := some "boom" }
        else { success := true, output := .vStr "okA" }⟩
      "r" ⟨"wf", [⟨"A", "t", [], []⟩, ⟨"B", "t", [], []⟩, ⟨"C", "t", [], []⟩],
        [⟨"A", "B"⟩, ⟨"B", "C"⟩]⟩ [] =
    some { execution_id := "r", workflow_id := "wf", status := .failed,
           steps := [
             { node_id := "A", node_type := "t", status := .completed,
               result := some ⟨true, .vStr "okA", none, none⟩, error := none,
               inputs := [], outputs := .vStr "okA" },
             { node_id := "B", node_type := "t", status := .failed,
               result := some ⟨false, .vNone, some "boom", none⟩,
               error := some "boom", inputs := [], outputs := .vDict [] },
             { node_id := "C", node_type := "t", status := .pending } ],
           results := [],
           error := some (.nodeFailed "B" (some "boom")) } :=
  claim1_chain_abort_on_failure
    ⟨fun _ => true, fun _ ctx => if ctx.node_id = "B"
      then { success := false, output := .vNone, error := some "boom" }
      else { success := true, output := .vStr "okA" }⟩
    "r" "t" [] (.vStr "okA") none none .vNone (some "boom") none
    rfl rfl rfl
